import Mathlib

/-!
# Document chaincode (`document_cc.go`): a shallow embedding

The chaincode keeps one JSON record per document id in the ledger's world
state and offers six transactions: `SubmitDocument`, `GetDocumentById`,
`ApproveDocument`, `RejectDocument`, `GetDocumentsForNode` and
`GetMessagesForNode`.

Modelling choices.

* A Go `string` is a sequence of bytes, a `GoString`: the arguments of the
  transactions, the keys of the world state and the texts of errors are Go
  strings and need not be valid UTF-8.
* The string fields of a decoded `Document` are Lean `String`s:
  `json.Unmarshal` yields valid UTF-8 only. `goBytes` gives the bytes of such a
  string, which is what Go's `==` and slicing (`nodeID[:6]`) work on.
* A Go slice is a `List` (a nil slice and an empty slice are both `[]`).
* A stored byte value is a `Value`: either bytes that `json.Unmarshal`
  decodes into a `Document` without error, or bytes on which it reports an
  error. `json.Marshal` of a `Document` cannot fail (strings and slices
  only), so the `err != nil` branch after it is unreachable and left out.
* A write stores `json.Marshal(document)`. The encoder replaces every byte of
  a Go string that starts no well-formed UTF-8 sequence by U+FFFD, so a Go
  string `s` placed in the struct is found in the stored record as
  `jsonString s`; a field taken from a decoded record is stored as it is
  (`jsonString_goBytes`).
* Every transaction is a function from the world state to a result and the
  world state after the call. A Go `error` and a runtime panic are the two
  kinds of `Failure`.
* What the chaincode takes from its host (the clock, `encoding/json` applied
  to the caller's viewer list, failures of the ledger stub) is collected in
  `Env`, one value per call.
-/

namespace DocumentCC

/-! ## Data model -/

/-- A Go string: a sequence of bytes (numbers below 256), not necessarily valid
UTF-8. A larger number is treated by every definition below like a byte that
starts no UTF-8 sequence. -/
abbrev GoString := List Nat

/-- The Go struct `NodeMessage` as decoded from JSON (field `Type` is spelled `Type_`). -/
structure NodeMessage where
  From : String
  To : String
  Message : String
  Type_ : String
  Timestamp : String
deriving DecidableEq, Repr

/-- The Go struct `Document` as decoded from JSON. -/
structure Document where
  DocID : String
  FileName : String
  SenderNode : String
  RecipientNode : String
  AllowedViewers : List String
  IPFSHash : String
  Status : String
  ApprovalNodes : List String
  RejectionReason : String
  RejectedBy : String
  Timestamp : String
  SenderFaction : String
  RecipientFaction : String
  Messages : List NodeMessage
deriving DecidableEq, Repr

/-- A value held by the world state under one key. -/
inductive Value where
  /-- Bytes that `json.Unmarshal` decodes, without error, into `d`. -/
  | json (d : Document)
  /-- Bytes on which `json.Unmarshal` into a `Document` returns the error `err`. -/
  | malformed (err : GoString)
deriving DecidableEq, Repr

/-- The world state: the records in the order a full range scan yields them. -/
abbrev Store := List (GoString × Value)

/-- How a call can fail. -/
inductive Failure where
  /-- A non-nil Go `error` returned to the caller, with its text. -/
  | error (msg : GoString)
  /-- The runtime panic `slice bounds out of range [:high] with length len`. -/
  | sliceBounds (high len : Nat)
deriving DecidableEq, Repr

deriving instance DecidableEq for Except

/-- What a call takes from its host. -/
structure Env where
  /-- The value of `time.Now().Format(time.RFC3339)` during the call. -/
  now : String
  /-- The slice left in `viewers` by `json.Unmarshal([]byte(s), &viewers)`
  on a nil `viewers` (the error is discarded by the caller). -/
  unmarshalViewers : GoString → List String
  /-- The error, if any, with which `GetState` fails on a key. -/
  getStateErr : GoString → Option GoString
  /-- The error, if any, with which `PutState` fails on a key. -/
  putStateErr : GoString → Option GoString
  /-- The error, if any, with which `GetStateByRange` fails. -/
  rangeErr : Option GoString
  /-- The error, if any, with which the `i`-th call of `iterator.Next` fails. -/
  nextErr : Nat → Option GoString

/-! ## Go strings and their JSON encoding -/

/-- The UTF-8 encoding of a code point. -/
def utf8Encode (n : Nat) : List Nat :=
  if n ≤ 0x7f then [n]
  else if n ≤ 0x7ff then [0xc0 + n / 64, 0x80 + n % 64]
  else if n ≤ 0xffff then [0xe0 + n / 4096, 0x80 + n / 64 % 64, 0x80 + n % 64]
  else [0xf0 + n / 262144, 0x80 + n / 4096 % 64, 0x80 + n / 64 % 64, 0x80 + n % 64]

/-- The bytes of a sequence of code points. -/
def utf8Bytes : List Char → List Nat
  | [] => []
  | c :: cs => utf8Encode c.toNat ++ utf8Bytes cs

/-- The bytes of a valid UTF-8 string: the Go string it is. -/
def goBytes (s : String) : GoString := utf8Bytes s.data

/-- The lowest second byte Go's `utf8` package accepts after the first byte `b0`. -/
def acceptLo (b0 : Nat) : Nat :=
  if b0 = 0xE0 then 0xA0 else if b0 = 0xF0 then 0x90 else 0x80

/-- The highest second byte Go's `utf8` package accepts after the first byte `b0`. -/
def acceptHi (b0 : Nat) : Nat :=
  if b0 = 0xED then 0x9F else if b0 = 0xF4 then 0x8F else 0xBF

/-- Go's `utf8.DecodeRuneInString` on a string with first byte `b0` and
remaining bytes `rest`: the rune and its size in bytes, or `none` where Go
returns `(RuneError, 1)` for a byte that starts no well-formed sequence. -/
def decodeRune (b0 : Nat) (rest : List Nat) : Option (Nat × Nat) :=
  if b0 < 0x80 then some (b0, 1)
  else if 0xC2 ≤ b0 ∧ b0 ≤ 0xDF then
    match rest with
    | b1 :: _ =>
      if 0x80 ≤ b1 ∧ b1 ≤ 0xBF then some (b0 % 32 * 64 + b1 % 64, 2) else none
    | _ => none
  else if 0xE0 ≤ b0 ∧ b0 ≤ 0xEF then
    match rest with
    | b1 :: b2 :: _ =>
      if acceptLo b0 ≤ b1 ∧ b1 ≤ acceptHi b0 ∧ 0x80 ≤ b2 ∧ b2 ≤ 0xBF then
        some (b0 % 16 * 4096 + b1 % 64 * 64 + b2 % 64, 3)
      else none
    | _ => none
  else if 0xF0 ≤ b0 ∧ b0 ≤ 0xF4 then
    match rest with
    | b1 :: b2 :: b3 :: _ =>
      if acceptLo b0 ≤ b1 ∧ b1 ≤ acceptHi b0 ∧ 0x80 ≤ b2 ∧ b2 ≤ 0xBF ∧
          0x80 ≤ b3 ∧ b3 ≤ 0xBF then
        some (b0 % 8 * 262144 + b1 % 64 * 4096 + b2 % 64 * 64 + b3 % 64, 4)
      else none
    | _ => none
  else none

/-- The runes `json.Marshal` writes for a Go string and `json.Unmarshal` reads
back: the encoder's loop decodes rune by rune (`i += size`) and writes U+FFFD
for every byte that starts no well-formed sequence. `skip` counts the bytes
of the current rune still to be passed over. -/
def jsonChars : Nat → List Nat → List Char
  | _, [] => []
  | skip + 1, _ :: rest => jsonChars skip rest
  | 0, b0 :: rest =>
    match decodeRune b0 rest with
    | some (r, size) => Char.ofNat r :: jsonChars (size - 1) rest
    | none => Char.ofNat 0xFFFD :: jsonChars 0 rest

/-- The string found in a stored record for the Go string `s` that was
marshalled into it. -/
def jsonString (s : GoString) : String := ⟨jsonChars 0 s⟩

/-! ## The ledger stub -/

/-- Go's `<` on strings, byte by byte. -/
def keyLess : GoString → GoString → Bool
  | _, [] => false
  | [], _ :: _ => true
  | a :: as, b :: bs => if a < b then true else if a = b then keyLess as bs else false

/-- The value under `key`: the first record of the scan with that key. -/
def lookupKey (key : GoString) : Store → Option Value
  | [] => none
  | (k, v) :: rest => if k = key then some v else lookupKey key rest

/-- Write `v` under `key`: an existing record is replaced where it stands, a
new one is placed before the first greater key (range scans are in key order). -/
def insertKey (key : GoString) (v : Value) : Store → Store
  | [] => [(key, v)]
  | (k, w) :: rest =>
    if k = key then (key, v) :: rest
    else if keyLess key k then (key, v) :: (k, w) :: rest
    else (k, w) :: insertKey key v rest

/-- The stub call `GetState(key)`: `none` stands for the nil value of an absent key. -/
def GetState (env : Env) (st : Store) (key : GoString) : Except GoString (Option Value) :=
  match env.getStateErr key with
  | some e => .error e
  | none => .ok (lookupKey key st)

/-- The stub call `PutState(key, value)`. -/
def PutState (env : Env) (st : Store) (key : GoString) (v : Value) : Except GoString Store :=
  match env.putStateErr key with
  | some e => .error e
  | none => .ok (insertKey key v st)

/-! ## Helper functions of the chaincode -/

/-- The source's `viewer == requestingNode` loop over `document.AllowedViewers`. -/
def inViewers (requestingNode : GoString) : List String → Bool
  | [] => false
  | viewer :: rest =>
    if goBytes viewer = requestingNode then true else inViewers requestingNode rest

/-- The source's `canViewDocument`. -/
def canViewDocument (requestingNode : GoString) (document : Document) : Bool :=
  if document.Status = "approved" then true
  else if goBytes document.SenderNode = requestingNode ∨
      goBytes document.RecipientNode = requestingNode then true
  else inViewers requestingNode document.AllowedViewers

/-- The source's `getFaction`: `nodeID[:6]` panics on fewer than six bytes. -/
def getFaction (nodeID : GoString) : Except Failure String :=
  if nodeID.length < 6 then .error (.sliceBounds 6 nodeID.length)
  else if nodeID.take 6 = goBytes "origin" then .ok "OriginOrgMSP"
  else .ok "DestOrgMSP"

/-- The source's `getAllNodes`. -/
def getAllNodes : List String :=
  ["origin-station", "origin-rail", "origin-customs", "origin-border",
   "dest-station", "dest-rail", "dest-customs", "dest-border"]

/-! ## The transactions -/

/-- The source's `SubmitDocument`. The struct literal is evaluated field by
field, so a panic of `getFaction` happens before anything is written. The
record written is `json.Marshal(document)`: the arguments placed in the struct
are found in it as `jsonString` of them. -/
def SubmitDocument (env : Env) (st : Store)
    (docID fileName senderNode recipientNode allowedViewers ipfsHash : GoString) :
    Except Failure Unit × Store :=
  let viewers := env.unmarshalViewers allowedViewers
  match getFaction senderNode with
  | .error f => (.error f, st)
  | .ok senderFaction =>
    match getFaction recipientNode with
    | .error f => (.error f, st)
    | .ok recipientFaction =>
      let document : Document :=
        { DocID := jsonString docID
          FileName := jsonString fileName
          SenderNode := jsonString senderNode
          RecipientNode := jsonString recipientNode
          AllowedViewers := viewers
          IPFSHash := jsonString ipfsHash
          Status := "pending"
          ApprovalNodes := []
          RejectionReason := ""
          RejectedBy := ""
          Timestamp := env.now
          SenderFaction := senderFaction
          RecipientFaction := recipientFaction
          Messages := [] }
      match PutState env st docID (.json document) with
      | .error e => (.error (.error e), st)
      | .ok st' => (.ok (), st')

/-- The `limitedDoc` literal of `GetDocumentById`: the fields it does not name
have their zero value. -/
def limitedDoc (document : Document) : Document :=
  { DocID := document.DocID
    FileName := document.FileName
    SenderNode := document.SenderNode
    RecipientNode := document.RecipientNode
    AllowedViewers := []
    IPFSHash := "RESTRICTED"
    Status := document.Status
    ApprovalNodes := []
    RejectionReason := ""
    RejectedBy := ""
    Timestamp := document.Timestamp
    SenderFaction := ""
    RecipientFaction := ""
    Messages := [] }

/-- The source's `GetDocumentById`; the JSON text it returns is given by the
document that text encodes. -/
def GetDocumentById (env : Env) (st : Store) (docID requestingNode : GoString) :
    Except Failure Document × Store :=
  match GetState env st docID with
  | .error e => (.error (.error (goBytes "failed to read from world state: " ++ e)), st)
  | .ok none =>
    (.error (.error (goBytes "the document " ++ docID ++ goBytes " does not exist")), st)
  | .ok (some (.malformed e)) => (.error (.error e), st)
  | .ok (some (.json document)) =>
    if !canViewDocument requestingNode document then (.ok (limitedDoc document), st)
    else (.ok document, st)

/-- The source's `ApproveDocument`. The record written is
`json.Marshal(document)`: `approverNode` and `message` are found in it as
`jsonString` of them. -/
def ApproveDocument (env : Env) (st : Store) (docID approverNode message : GoString) :
    Except Failure Unit × Store :=
  match GetState env st docID with
  | .error e => (.error (.error (goBytes "failed to read from world state: " ++ e)), st)
  | .ok none =>
    (.error (.error (goBytes "the document " ++ docID ++ goBytes " does not exist")), st)
  | .ok (some (.malformed e)) => (.error (.error e), st)
  | .ok (some (.json document)) =>
    let approvalMsg : NodeMessage :=
      { From := jsonString approverNode
        To := document.SenderNode
        Message := jsonString message
        Type_ := "approval"
        Timestamp := env.now }
    let document : Document :=
      { document with
        Status := "approved"
        ApprovalNodes := document.ApprovalNodes ++ [jsonString approverNode]
        AllowedViewers := getAllNodes
        Messages := document.Messages ++ [approvalMsg] }
    match PutState env st docID (.json document) with
    | .error e => (.error (.error e), st)
    | .ok st' => (.ok (), st')

/-- The source's `RejectDocument`. The record written is
`json.Marshal(document)`: `rejecterNode`, `reason` and the text built by
`fmt.Sprintf` are found in it as `jsonString` of them. -/
def RejectDocument (env : Env) (st : Store) (docID rejecterNode reason : GoString) :
    Except Failure Unit × Store :=
  match GetState env st docID with
  | .error e => (.error (.error (goBytes "failed to read from world state: " ++ e)), st)
  | .ok none =>
    (.error (.error (goBytes "the document " ++ docID ++ goBytes " does not exist")), st)
  | .ok (some (.malformed e)) => (.error (.error e), st)
  | .ok (some (.json document)) =>
    let rejectionMsg : NodeMessage :=
      { From := jsonString rejecterNode
        To := document.SenderNode
        Message := jsonString (goBytes "Document rejected: " ++ reason)
        Type_ := "rejection"
        Timestamp := env.now }
    let document : Document :=
      { document with
        Status := "rejected"
        RejectedBy := jsonString rejecterNode
        RejectionReason := jsonString reason
        Messages := document.Messages ++ [rejectionMsg] }
    match PutState env st docID (.json document) with
    | .error e => (.error (.error e), st)
    | .ok st' => (.ok (), st')

/-- The `for iterator.HasNext()` loop of `GetDocumentsForNode`: `i` counts the
calls of `iterator.Next`, `documents` is the slice built so far. -/
def documentsLoop (env : Env) (nodeID : GoString) :
    Nat → Store → List Document → Except Failure (List Document)
  | _, [], documents => .ok documents
  | i, (_, value) :: rest, documents =>
    match env.nextErr i with
    | some e => .error (.error e)
    | none =>
      match value with
      | .malformed _ => documentsLoop env nodeID (i + 1) rest documents
      | .json document =>
        if goBytes document.SenderNode = nodeID ∨ goBytes document.RecipientNode = nodeID ∨
            canViewDocument nodeID document = true then
          documentsLoop env nodeID (i + 1) rest (documents ++ [document])
        else documentsLoop env nodeID (i + 1) rest documents

/-- The source's `GetDocumentsForNode`. -/
def GetDocumentsForNode (env : Env) (st : Store) (nodeID : GoString) :
    Except Failure (List Document) × Store :=
  match env.rangeErr with
  | some e => (.error (.error e), st)
  | none => (documentsLoop env nodeID 0 st [], st)

/-- The inner loop of `GetMessagesForNode` over `document.Messages`. -/
def collectMessages (nodeID : GoString) :
    List NodeMessage → List NodeMessage → List NodeMessage
  | [], messages => messages
  | msg :: rest, messages =>
    if goBytes msg.To = nodeID then collectMessages nodeID rest (messages ++ [msg])
    else collectMessages nodeID rest messages

/-- The `for iterator.HasNext()` loop of `GetMessagesForNode`. -/
def messagesLoop (env : Env) (nodeID : GoString) :
    Nat → Store → List NodeMessage → Except Failure (List NodeMessage)
  | _, [], messages => .ok messages
  | i, (_, value) :: rest, messages =>
    match env.nextErr i with
    | some e => .error (.error e)
    | none =>
      match value with
      | .malformed _ => messagesLoop env nodeID (i + 1) rest messages
      | .json document =>
        messagesLoop env nodeID (i + 1) rest (collectMessages nodeID document.Messages messages)

/-- The source's `GetMessagesForNode`. -/
def GetMessagesForNode (env : Env) (st : Store) (nodeID : GoString) :
    Except Failure (List NodeMessage) × Store :=
  match env.rangeErr with
  | some e => (.error (.error e), st)
  | none => (messagesLoop env nodeID 0 st [], st)

/-! ## Reachable world states -/

/-- The world states built from the empty one by successful calls of
`SubmitDocument`, `ApproveDocument` and `RejectDocument`, where every call of
`RejectDocument` has arguments accepted by `rejectArgs`. -/
inductive ReachableVia (rejectArgs : GoString → GoString → Prop) : Store → Prop where
  | empty : ReachableVia rejectArgs []
  | submit (env : Env) (st : Store)
      (docID fileName senderNode recipientNode allowedViewers ipfsHash : GoString) :
      ReachableVia rejectArgs st →
      (SubmitDocument env st docID fileName senderNode recipientNode allowedViewers ipfsHash).1
        = .ok () →
      ReachableVia rejectArgs
        (SubmitDocument env st docID fileName senderNode recipientNode allowedViewers ipfsHash).2
  | approve (env : Env) (st : Store) (docID approverNode message : GoString) :
      ReachableVia rejectArgs st →
      (ApproveDocument env st docID approverNode message).1 = .ok () →
      ReachableVia rejectArgs (ApproveDocument env st docID approverNode message).2
  | reject (env : Env) (st : Store) (docID rejecterNode reason : GoString) :
      ReachableVia rejectArgs st →
      rejectArgs rejecterNode reason →
      (RejectDocument env st docID rejecterNode reason).1 = .ok () →
      ReachableVia rejectArgs (RejectDocument env st docID rejecterNode reason).2

/-- The world states built from the empty one by successful calls of
`SubmitDocument`, `ApproveDocument` and `RejectDocument` with any arguments. -/
def Reachable (st : Store) : Prop := ReachableVia (fun _ _ => True) st

/-- A host on which no stub call fails, with the clock at `now` and a viewer
list decoder that yields `viewers`. -/
def quietEnv (now : String) (viewers : List String) : Env :=
  { now := now
    unmarshalViewers := fun _ => viewers
    getStateErr := fun _ => none
    putStateErr := fun _ => none
    rangeErr := none
    nextErr := fun _ => none }

/-- The documents of the records that decode, in scan order. -/
def decodable : Store → List Document
  | [] => []
  | (_, .json d) :: rest => d :: decodable rest
  | (_, .malformed _) :: rest => decodable rest

/-- The messages of a document that are addressed to `nodeID`. -/
def addressedTo (nodeID : GoString) (d : Document) : List NodeMessage :=
  d.Messages.filter (fun m => decide (goBytes m.To = nodeID))

/-- The store without the records that do not decode. -/
def dropMalformed : Store → Store
  | [] => []
  | (k, .json d) :: rest => (k, .json d) :: dropMalformed rest
  | (_, .malformed _) :: rest => dropMalformed rest

/-! ## Example data -/

/-- The document of the spec's first scenario, as `SubmitDocument` stores it. -/
def doc1 : Document :=
  { DocID := "doc1"
    FileName := "f.pdf"
    SenderNode := "origin-station"
    RecipientNode := "dest-customs"
    AllowedViewers := []
    IPFSHash := "hash1"
    Status := "pending"
    ApprovalNodes := []
    RejectionReason := ""
    RejectedBy := ""
    Timestamp := "2024-01-01T00:00:00Z"
    SenderFaction := "OriginOrgMSP"
    RecipientFaction := "DestOrgMSP"
    Messages := [] }

/-- A host on which no stub call fails. -/
def env1 : Env := quietEnv "2024-01-02T00:00:00Z" []

/-- A store with two documents that carry messages and one record that does
not decode. -/
def scanStore : Store :=
  [(goBytes "doc1", .json { doc1 with
      Status := "approved"
      Messages := [{ From := "dest-customs", To := "origin-station", Message := "looks good",
                     Type_ := "approval", Timestamp := "t1" }] }),
   (goBytes "doc2", .malformed (goBytes "unexpected end of JSON input")),
   (goBytes "doc3", .json { doc1 with
      DocID := "doc3"
      SenderNode := "origin-rail"
      Messages := [{ From := "dest-border", To := "origin-rail", Message := "Document rejected: x",
                     Type_ := "rejection", Timestamp := "t2" },
                   { From := "dest-border", To := "origin-station", Message := "note",
                     Type_ := "approval", Timestamp := "t3" }] })]

/-- The clock of the submission in the examples. -/
def env0 : Env := quietEnv "2024-01-01T00:00:00Z" []

/-- The store after the submission of `doc1` into the empty store. -/
def submittedStore : Store :=
  (SubmitDocument env0 [] (goBytes "doc1") (goBytes "f.pdf") (goBytes "origin-station")
    (goBytes "dest-customs") (goBytes "[]") (goBytes "hash1")).2

/-- The store after the recipient has approved `doc1`. -/
def approvedStore : Store :=
  (ApproveDocument env1 submittedStore (goBytes "doc1") (goBytes "dest-customs")
    (goBytes "looks good")).2

/-- The record of `doc1` in `approvedStore`. -/
def approvedDoc1 : Document :=
  { doc1 with
    Status := "approved"
    ApprovalNodes := ["dest-customs"]
    AllowedViewers := getAllNodes
    Messages := [{ From := "dest-customs", To := "origin-station", Message := "looks good",
                   Type_ := "approval", Timestamp := "2024-01-02T00:00:00Z" }] }

/-- The store after a border node has rejected `doc1` with a reason. -/
def rejectedStore : Store :=
  (RejectDocument env1 submittedStore (goBytes "doc1") (goBytes "dest-border")
    (goBytes "missing signature")).2

/-- The record of `doc1` in `rejectedStore`. -/
def rejectedDoc1 : Document :=
  { doc1 with
    Status := "rejected"
    RejectedBy := "dest-border"
    RejectionReason := "missing signature"
    Messages := [{ From := "dest-border", To := "origin-station",
                   Message := "Document rejected: missing signature",
                   Type_ := "rejection", Timestamp := "2024-01-02T00:00:00Z" }] }

/-- The store after `doc1` has been rejected with an empty rejecter and an
empty reason. -/
def blankRejectStore : Store :=
  (RejectDocument env1 submittedStore (goBytes "doc1") [] []).2

/-- The record of `doc1` in `blankRejectStore`. -/
def blankRejectDoc1 : Document :=
  { doc1 with
    Status := "rejected"
    Messages := [{ From := "", To := "origin-station", Message := "Document rejected: ",
                   Type_ := "rejection", Timestamp := "2024-01-02T00:00:00Z" }] }

/-- The store after `doc1` has been rejected by a border node and then
approved by the recipient. -/
def reapprovedStore : Store :=
  (ApproveDocument env1 rejectedStore (goBytes "doc1") (goBytes "dest-customs")
    (goBytes "looks good")).2

/-- The record of `doc1` in `reapprovedStore`. -/
def reapprovedDoc1 : Document :=
  { rejectedDoc1 with
    Status := "approved"
    ApprovalNodes := ["dest-customs"]
    AllowedViewers := getAllNodes
    Messages := rejectedDoc1.Messages ++
      [{ From := "dest-customs", To := "origin-station", Message := "looks good",
         Type_ := "approval", Timestamp := "2024-01-02T00:00:00Z" }] }

/-- A Go string that is not valid UTF-8: the byte 0xff followed by "station". -/
def badNode : GoString := 0xff :: goBytes "station"

/-- The bytes of the string stored for `badNode`: U+FFFD followed by "station". -/
def badNodeStored : GoString := 0xEF :: 0xBF :: 0xBD :: goBytes "station"

/-- The string stored for `badNode`: U+FFFD followed by "station". -/
def badNodeText : String := ⟨Char.ofNat 0xFFFD :: "station".data⟩

/-- The record of `doc1` after its approval by `badNode` with the text "ok". -/
def badApprovedDoc1 : Document :=
  { doc1 with
    Status := "approved"
    ApprovalNodes := [badNodeText]
    AllowedViewers := getAllNodes
    Messages := [{ From := badNodeText, To := "origin-station", Message := "ok",
                   Type_ := "approval", Timestamp := "2024-01-02T00:00:00Z" }] }

/-- The record of `doc1` after its rejection by `badNode` with the reason `badNode`. -/
def badRejectedDoc1 : Document :=
  { doc1 with
    Status := "rejected"
    RejectedBy := badNodeText
    RejectionReason := badNodeText
    Messages := [{ From := badNodeText, To := "origin-station",
                   Message := "Document rejected: " ++ badNodeText,
                   Type_ := "rejection", Timestamp := "2024-01-02T00:00:00Z" }] }

/-- The record stored when `doc1` is submitted with the sender `badNode`. -/
def badSubmittedDoc1 : Document :=
  { doc1 with
    SenderNode := badNodeText
    SenderFaction := "DestOrgMSP" }

/-! ## Lemmas on the ledger stub -/

theorem lookupKey_insertKey_self (key : GoString) (v : Value) (st : Store) :
    lookupKey key (insertKey key v st) = some v := by
  induction st with
  | nil => simp [insertKey, lookupKey]
  | cons kv rest ih =>
    obtain ⟨k, w⟩ := kv
    by_cases h : k = key
    · simp [insertKey, lookupKey, h]
    · by_cases hl : keyLess key k = true
      · simp [insertKey, lookupKey, h, hl]
      · simp [insertKey, lookupKey, h, hl, ih]

theorem lookupKey_insertKey_of_ne (key other : GoString) (v : Value) (st : Store)
    (hne : other ≠ key) : lookupKey other (insertKey key v st) = lookupKey other st := by
  induction st with
  | nil => simp [insertKey, lookupKey, Ne.symm hne]
  | cons kv rest ih =>
    obtain ⟨k, w⟩ := kv
    by_cases h : k = key
    · subst h
      simp [insertKey, lookupKey, Ne.symm hne]
    · by_cases hl : keyLess key k = true
      · simp [insertKey, lookupKey, h, hl, Ne.symm hne]
      · by_cases hk : k = other
        · subst hk
          simp [insertKey, lookupKey, h, hl]
        · simp [insertKey, lookupKey, h, hl, hk, ih]

theorem mem_insertKey {key : GoString} {v : Value} {st : Store} {x : GoString × Value}
    (hx : x ∈ insertKey key v st) : x = (key, v) ∨ x ∈ st := by
  induction st with
  | nil => simpa [insertKey] using hx
  | cons kv rest ih =>
    obtain ⟨k, w⟩ := kv
    by_cases h : k = key
    · simp only [insertKey, h, if_true, List.mem_cons] at hx
      rcases hx with hx | hx
      · exact Or.inl hx
      · exact Or.inr (List.mem_cons_of_mem _ hx)
    · by_cases hl : keyLess key k = true
      · simp only [insertKey, h, hl, if_true, if_false, List.mem_cons] at hx
        rcases hx with hx | hx | hx
        · exact Or.inl hx
        · exact Or.inr (hx ▸ List.mem_cons_self _ _)
        · exact Or.inr (List.mem_cons_of_mem _ hx)
      · have hl' : keyLess key k = false := by simpa using hl
        simp only [insertKey, h, hl', if_false, List.mem_cons, Bool.false_eq_true] at hx
        rcases hx with hx | hx
        · exact Or.inr (hx ▸ List.mem_cons_self _ _)
        · rcases ih hx with h1 | h1
          · exact Or.inl h1
          · exact Or.inr (List.mem_cons_of_mem _ h1)

theorem lookupKey_mem {key : GoString} {v : Value} {st : Store}
    (h : lookupKey key st = some v) : (key, v) ∈ st := by
  induction st with
  | nil => simp [lookupKey] at h
  | cons kv rest ih =>
    obtain ⟨k, w⟩ := kv
    by_cases hk : k = key
    · simp [lookupKey, hk] at h
      simp [hk, h]
    · simp [lookupKey, hk] at h
      exact List.mem_cons_of_mem _ (ih h)

theorem inViewers_iff (requestingNode : GoString) (viewers : List String) :
    inViewers requestingNode viewers = true ↔ requestingNode ∈ viewers.map goBytes := by
  induction viewers with
  | nil => simp [inViewers]
  | cons viewer rest ih =>
    by_cases h : goBytes viewer = requestingNode
    · simp [inViewers, h]
    · simp [inViewers, h, ih, Ne.symm h]

theorem utf8Bytes_append (a b : List Char) :
    utf8Bytes (a ++ b) = utf8Bytes a ++ utf8Bytes b := by
  induction a with
  | nil => simp [utf8Bytes]
  | cons c cs ih => simp [utf8Bytes, ih]

theorem goBytes_append (a b : String) : goBytes (a ++ b) = goBytes a ++ goBytes b := by
  simp [goBytes, String.data_append, utf8Bytes_append]

theorem goBytes_origin : goBytes "origin" = [111, 114, 105, 103, 105, 110] := by decide

theorem goBytes_dest : goBytes "dest" = [100, 101, 115, 116] := by decide

theorem canViewDocument_of_rejected (n : GoString) (d' d : Document)
    (h : canViewDocument n d' = true)
    (hs : d'.Status = "rejected") (h1 : d'.SenderNode = d.SenderNode)
    (h2 : d'.RecipientNode = d.RecipientNode) (h3 : d'.AllowedViewers = d.AllowedViewers) :
    canViewDocument n d = true := by
  unfold canViewDocument at h ⊢
  have hne : ¬ d'.Status = "approved" := by
    rw [hs]
    decide
  rw [if_neg hne, h1, h2, h3] at h
  by_cases hap : d.Status = "approved"
  · rw [if_pos hap]
  · rw [if_neg hap]
    exact h

/-! ## Lemmas on the JSON encoding of Go strings -/

theorem jsonChars_zero_cons (b0 : Nat) (rest : List Nat) :
    jsonChars 0 (b0 :: rest) =
      match decodeRune b0 rest with
      | some (r, size) => Char.ofNat r :: jsonChars (size - 1) rest
      | none => Char.ofNat 0xFFFD :: jsonChars 0 rest := by
  rw [jsonChars]

theorem jsonChars_succ_cons (skip b : Nat) (rest : List Nat) :
    jsonChars (skip + 1) (b :: rest) = jsonChars skip rest := by
  rw [jsonChars]

theorem jsonChars_utf8Encode (n : Nat) (hvalid : n < 0xD800 ∨ (0xDFFF < n ∧ n < 0x110000))
    (rest : List Nat) :
    jsonChars 0 (utf8Encode n ++ rest) = Char.ofNat n :: jsonChars 0 rest := by
  unfold utf8Encode
  by_cases h1 : n ≤ 0x7f
  · rw [if_pos h1]
    have a1 : n < 0x80 := by omega
    have hdec : decodeRune n rest = some (n, 1) := by
      unfold decodeRune
      rw [if_pos a1]
    rw [List.singleton_append, jsonChars_zero_cons, hdec]
  · rw [if_neg h1]
    by_cases h2 : n ≤ 0x7ff
    · rw [if_pos h2]
      have a1 : ¬ (0xc0 + n / 64 < 0x80) := by omega
      have a2 : 0xC2 ≤ 0xc0 + n / 64 ∧ 0xc0 + n / 64 ≤ 0xDF := by omega
      have a3 : 0x80 ≤ 0x80 + n % 64 ∧ 0x80 + n % 64 ≤ 0xBF := by omega
      have a4 : (0xc0 + n / 64) % 32 * 64 + (0x80 + n % 64) % 64 = n := by omega
      have hdec : decodeRune (0xc0 + n / 64) ((0x80 + n % 64) :: rest) = some (n, 2) := by
        unfold decodeRune
        rw [if_neg a1, if_pos a2]
        simp only [if_pos a3, a4]
      show jsonChars 0 ((0xc0 + n / 64) :: (0x80 + n % 64) :: rest) = _
      rw [jsonChars_zero_cons, hdec]
      show Char.ofNat n :: jsonChars 1 ((0x80 + n % 64) :: rest) = _
      rw [jsonChars_succ_cons]
    · rw [if_neg h2]
      by_cases h3 : n ≤ 0xffff
      · rw [if_pos h3]
        have a1 : ¬ (0xe0 + n / 4096 < 0x80) := by omega
        have a2 : ¬ (0xC2 ≤ 0xe0 + n / 4096 ∧ 0xe0 + n / 4096 ≤ 0xDF) := by omega
        have a3 : 0xE0 ≤ 0xe0 + n / 4096 ∧ 0xe0 + n / 4096 ≤ 0xEF := by omega
        have a4 : acceptLo (0xe0 + n / 4096) ≤ 0x80 + n / 64 % 64 ∧
            0x80 + n / 64 % 64 ≤ acceptHi (0xe0 + n / 4096) ∧
            0x80 ≤ 0x80 + n % 64 ∧ 0x80 + n % 64 ≤ 0xBF := by
          unfold acceptLo acceptHi
          split_ifs <;> omega
        have a5 : (0xe0 + n / 4096) % 16 * 4096 + (0x80 + n / 64 % 64) % 64 * 64
            + (0x80 + n % 64) % 64 = n := by omega
        have hdec : decodeRune (0xe0 + n / 4096)
            ((0x80 + n / 64 % 64) :: (0x80 + n % 64) :: rest) = some (n, 3) := by
          unfold decodeRune
          rw [if_neg a1, if_neg a2, if_pos a3]
          simp only [if_pos a4, a5]
        show jsonChars 0 ((0xe0 + n / 4096) :: (0x80 + n / 64 % 64) :: (0x80 + n % 64) :: rest)
          = _
        rw [jsonChars_zero_cons, hdec]
        show Char.ofNat n :: jsonChars 2 ((0x80 + n / 64 % 64) :: (0x80 + n % 64) :: rest) = _
        rw [jsonChars_succ_cons, jsonChars_succ_cons]
      · rw [if_neg h3]
        have a1 : ¬ (0xf0 + n / 262144 < 0x80) := by omega
        have a2 : ¬ (0xC2 ≤ 0xf0 + n / 262144 ∧ 0xf0 + n / 262144 ≤ 0xDF) := by omega
        have a3 : ¬ (0xE0 ≤ 0xf0 + n / 262144 ∧ 0xf0 + n / 262144 ≤ 0xEF) := by omega
        have a6 : 0xF0 ≤ 0xf0 + n / 262144 ∧ 0xf0 + n / 262144 ≤ 0xF4 := by omega
        have a4 : acceptLo (0xf0 + n / 262144) ≤ 0x80 + n / 4096 % 64 ∧
            0x80 + n / 4096 % 64 ≤ acceptHi (0xf0 + n / 262144) ∧
            0x80 ≤ 0x80 + n / 64 % 64 ∧ 0x80 + n / 64 % 64 ≤ 0xBF ∧
            0x80 ≤ 0x80 + n % 64 ∧ 0x80 + n % 64 ≤ 0xBF := by
          unfold acceptLo acceptHi
          split_ifs <;> omega
        have a5 : (0xf0 + n / 262144) % 8 * 262144 + (0x80 + n / 4096 % 64) % 64 * 4096
            + (0x80 + n / 64 % 64) % 64 * 64 + (0x80 + n % 64) % 64 = n := by omega
        have hdec : decodeRune (0xf0 + n / 262144)
            ((0x80 + n / 4096 % 64) :: (0x80 + n / 64 % 64) :: (0x80 + n % 64) :: rest)
              = some (n, 4) := by
          unfold decodeRune
          rw [if_neg a1, if_neg a2, if_neg a3, if_pos a6]
          simp only [if_pos a4, a5]
        show jsonChars 0 ((0xf0 + n / 262144) :: (0x80 + n / 4096 % 64) ::
          (0x80 + n / 64 % 64) :: (0x80 + n % 64) :: rest) = _
        rw [jsonChars_zero_cons, hdec]
        show Char.ofNat n :: jsonChars 3 ((0x80 + n / 4096 % 64) ::
          (0x80 + n / 64 % 64) :: (0x80 + n % 64) :: rest) = _
        rw [jsonChars_succ_cons, jsonChars_succ_cons, jsonChars_succ_cons]

theorem jsonChars_utf8Bytes (cs : List Char) (rest : List Nat) :
    jsonChars 0 (utf8Bytes cs ++ rest) = cs ++ jsonChars 0 rest := by
  induction cs with
  | nil => rfl
  | cons c cs ih =>
    have hv : c.toNat < 0xD800 ∨ (0xDFFF < c.toNat ∧ c.toNat < 0x110000) := c.valid
    simp only [utf8Bytes, List.append_assoc, List.cons_append]
    rw [jsonChars_utf8Encode c.toNat hv, ih, Char.ofNat_toNat]

theorem jsonString_goBytes_append (s : String) (b : GoString) :
    jsonString (goBytes s ++ b) = s ++ jsonString b := by
  unfold jsonString goBytes
  rw [jsonChars_utf8Bytes]
  rfl

theorem jsonString_goBytes (s : String) : jsonString (goBytes s) = s := by
  have h := jsonString_goBytes_append s []
  rw [List.append_nil] at h
  rw [h]
  show s ++ (⟨[]⟩ : String) = s
  exact String.append_empty s

theorem jsonString_ne_empty (b : GoString) (hb : b ≠ []) : jsonString b ≠ "" := by
  cases b with
  | nil => exact absurd rfl hb
  | cons b0 rest =>
    intro h
    have h2 : jsonChars 0 (b0 :: rest) = [] := congrArg String.data h
    rw [jsonChars_zero_cons] at h2
    split at h2 <;> simp at h2

/-! ## Lemmas on the scan loops -/

theorem collectMessages_eq (nodeID : GoString) (msgs messages : List NodeMessage) :
    collectMessages nodeID msgs messages
      = messages ++ msgs.filter (fun m => decide (goBytes m.To = nodeID)) := by
  induction msgs generalizing messages with
  | nil => simp [collectMessages]
  | cons msg rest ih =>
    by_cases h : goBytes msg.To = nodeID
    · simp [collectMessages, h, ih]
    · simp [collectMessages, h, ih]

theorem messagesLoop_eq (env : Env) (nodeID : GoString) (hnext : ∀ i, env.nextErr i = none)
    (st : Store) (i : Nat) (messages : List NodeMessage) :
    messagesLoop env nodeID i st messages
      = .ok (messages ++ (decodable st).flatMap (addressedTo nodeID)) := by
  induction st generalizing i messages with
  | nil => simp [messagesLoop, decodable]
  | cons kv rest ih =>
    obtain ⟨k, value⟩ := kv
    cases value with
    | malformed e => simp [messagesLoop, decodable, hnext, ih]
    | json d =>
      simp [messagesLoop, decodable, hnext, ih, collectMessages_eq, addressedTo]

theorem documentsLoop_eq (env : Env) (nodeID : GoString) (hnext : ∀ i, env.nextErr i = none)
    (st : Store) (i : Nat) (documents : List Document) :
    documentsLoop env nodeID i st documents
      = .ok (documents ++ (decodable st).filter (fun d => decide
          (goBytes d.SenderNode = nodeID ∨ goBytes d.RecipientNode = nodeID ∨
            canViewDocument nodeID d = true))) := by
  induction st generalizing i documents with
  | nil => simp [documentsLoop, decodable]
  | cons kv rest ih =>
    obtain ⟨k, value⟩ := kv
    cases value with
    | malformed e => simp [documentsLoop, decodable, hnext, ih]
    | json d =>
      by_cases h : goBytes d.SenderNode = nodeID ∨ goBytes d.RecipientNode = nodeID ∨
          canViewDocument nodeID d = true
      · simp only [documentsLoop, decodable, hnext, ih, if_pos h]
        simp [List.filter_cons, h]
      · simp only [documentsLoop, decodable, hnext, ih, if_neg h]
        simp [List.filter_cons, h]

theorem mem_decodable {d : Document} {st : Store} :
    d ∈ decodable st ↔ ∃ k, (k, Value.json d) ∈ st := by
  induction st with
  | nil => simp [decodable]
  | cons kv rest ih =>
    obtain ⟨k, value⟩ := kv
    cases value with
    | malformed e => simp [decodable, ih]
    | json d' =>
      simp only [decodable, List.mem_cons, ih, Prod.mk.injEq, Value.json.injEq]
      constructor
      · rintro (h | ⟨k', h⟩)
        · exact ⟨k, Or.inl ⟨rfl, h⟩⟩
        · exact ⟨k', Or.inr h⟩
      · rintro ⟨k', h | h⟩
        · exact Or.inl h.2
        · exact Or.inr ⟨k', h⟩

theorem decodable_dropMalformed (st : Store) : decodable (dropMalformed st) = decodable st := by
  induction st with
  | nil => rfl
  | cons kv rest ih =>
    obtain ⟨k, value⟩ := kv
    cases value with
    | malformed e => simpa [dropMalformed, decodable] using ih
    | json d => simp [dropMalformed, decodable, ih]

theorem documentsLoop_mem (env : Env) (nodeID : GoString) (st : Store) (i : Nat)
    (documents docs : List Document)
    (hres : documentsLoop env nodeID i st documents = .ok docs) (d : Document)
    (hd : d ∈ docs) :
    d ∈ documents ∨ (goBytes d.SenderNode = nodeID ∨ goBytes d.RecipientNode = nodeID ∨
      canViewDocument nodeID d = true) := by
  induction st generalizing i documents with
  | nil =>
    simp only [documentsLoop, Except.ok.injEq] at hres
    exact Or.inl (hres ▸ hd)
  | cons kv rest ih =>
    obtain ⟨k, value⟩ := kv
    cases hn : env.nextErr i with
    | some e => simp [documentsLoop, hn] at hres
    | none =>
      cases value with
      | malformed e =>
        simp only [documentsLoop, hn] at hres
        exact ih (i + 1) documents hres
      | json d' =>
        by_cases h : goBytes d'.SenderNode = nodeID ∨ goBytes d'.RecipientNode = nodeID ∨
            canViewDocument nodeID d' = true
        · simp only [documentsLoop, hn, if_pos h] at hres
          rcases ih (i + 1) (documents ++ [d']) hres with h1 | h1
          · rcases List.mem_append.mp h1 with h2 | h2
            · exact Or.inl h2
            · rw [List.mem_singleton.mp h2]
              exact Or.inr h
          · exact Or.inr h1
        · simp only [documentsLoop, hn, if_neg h] at hres
          exact ih (i + 1) documents hres

/-! ## What a successful write transaction does to the store -/

theorem SubmitDocument_ok {env : Env} {st : Store}
    {docID fileName senderNode recipientNode allowedViewers ipfsHash : GoString}
    (hok : (SubmitDocument env st docID fileName senderNode recipientNode allowedViewers
      ipfsHash).1 = .ok ()) :
    ∃ d : Document, d.Status = "pending" ∧ d.ApprovalNodes = [] ∧ d.Messages = [] ∧
      d.RejectionReason = "" ∧ d.RejectedBy = "" ∧ d.SenderNode = jsonString senderNode ∧
      (SubmitDocument env st docID fileName senderNode recipientNode allowedViewers
        ipfsHash).2 = insertKey docID (.json d) st := by
  unfold SubmitDocument at hok ⊢
  unfold PutState at hok ⊢
  cases hs : getFaction senderNode with
  | error f => simp [hs] at hok
  | ok sf =>
    cases hr : getFaction recipientNode with
    | error f => simp [hs, hr] at hok
    | ok rf =>
      cases hp : env.putStateErr docID with
      | some e => simp [hs, hr, hp] at hok
      | none => exact ⟨_, rfl, rfl, rfl, rfl, rfl, rfl, rfl⟩

theorem ApproveDocument_ok {env : Env} {st : Store} {docID approverNode message : GoString}
    (hok : (ApproveDocument env st docID approverNode message).1 = .ok ()) :
    ∃ d : Document, lookupKey docID st = some (.json d) ∧
      (ApproveDocument env st docID approverNode message).2 =
        insertKey docID (.json
          { d with
            Status := "approved"
            ApprovalNodes := d.ApprovalNodes ++ [jsonString approverNode]
            AllowedViewers := getAllNodes
            Messages := d.Messages ++
              [{ From := jsonString approverNode, To := d.SenderNode,
                 Message := jsonString message,
                 Type_ := "approval", Timestamp := env.now }] }) st := by
  unfold ApproveDocument at hok ⊢
  unfold GetState PutState at hok ⊢
  cases hg : env.getStateErr docID with
  | some e => simp [hg] at hok
  | none =>
    cases hl : lookupKey docID st with
    | none => simp [hg, hl] at hok
    | some value =>
      cases value with
      | malformed e => simp [hg, hl] at hok
      | json d =>
        cases hp : env.putStateErr docID with
        | some e => simp [hg, hl, hp] at hok
        | none => exact ⟨d, rfl, rfl⟩

theorem RejectDocument_ok {env : Env} {st : Store} {docID rejecterNode reason : GoString}
    (hok : (RejectDocument env st docID rejecterNode reason).1 = .ok ()) :
    ∃ d : Document, lookupKey docID st = some (.json d) ∧
      (RejectDocument env st docID rejecterNode reason).2 =
        insertKey docID (.json
          { d with
            Status := "rejected"
            RejectedBy := jsonString rejecterNode
            RejectionReason := jsonString reason
            Messages := d.Messages ++
              [{ From := jsonString rejecterNode, To := d.SenderNode,
                 Message := jsonString (goBytes "Document rejected: " ++ reason),
                 Type_ := "rejection", Timestamp := env.now }] }) st := by
  unfold RejectDocument at hok ⊢
  unfold GetState PutState at hok ⊢
  cases hg : env.getStateErr docID with
  | some e => simp [hg] at hok
  | none =>
    cases hl : lookupKey docID st with
    | none => simp [hg, hl] at hok
    | some value =>
      cases value with
      | malformed e => simp [hg, hl] at hok
      | json d =>
        cases hp : env.putStateErr docID with
        | some e => simp [hg, hl, hp] at hok
        | none => exact ⟨d, rfl, rfl⟩

/-! ## The access rule and the single-document transactions -/

/-- C1: `canViewDocument` returns true if and only if the document's status is
"approved", or the requesting node is the sender, or is the recipient, or
occurs in the allowed viewers. -/
theorem canViewDocument_iff (requestingNode : GoString) (document : Document) :
    canViewDocument requestingNode document = true ↔
      (document.Status = "approved" ∨ requestingNode = goBytes document.SenderNode ∨
        requestingNode = goBytes document.RecipientNode ∨
        requestingNode ∈ document.AllowedViewers.map goBytes) := by
  unfold canViewDocument
  by_cases h1 : document.Status = "approved"
  · simp [h1]
  · by_cases h2 : goBytes document.SenderNode = requestingNode ∨
        goBytes document.RecipientNode = requestingNode
    · rw [if_neg h1, if_pos h2]
      rcases h2 with h2 | h2
      · simp [h2]
      · simp [h2]
    · rw [if_neg h1, if_neg h2, inViewers_iff]
      have h3 : ¬ requestingNode = goBytes document.SenderNode := fun h => h2 (Or.inl h.symm)
      have h4 : ¬ requestingNode = goBytes document.RecipientNode :=
        fun h => h2 (Or.inr h.symm)
      simp only [h1, h3, h4, false_or]

/-- C2: on a store that holds a decodable document `d` at `docID` (and a read
that does not fail) `GetDocumentById` succeeds and leaves the store as it is;
it returns `d` unchanged when `canViewDocument` is true, and otherwise the
redacted view: docID, fileName, senderNode, recipientNode, status and
timestamp of `d`, ipfsHash "RESTRICTED", every other field empty. When `d`
does not itself carry the sentinel hash, the result is `d` exactly when
`canViewDocument` is true. -/
theorem GetDocumentById_view (env : Env) (st : Store) (docID requestingNode : GoString)
    (d : Document) (hread : env.getStateErr docID = none)
    (hd : lookupKey docID st = some (.json d)) :
    ∃ r, GetDocumentById env st docID requestingNode = (.ok r, st) ∧
      (canViewDocument requestingNode d = true → r = d) ∧
      (canViewDocument requestingNode d = false →
        r.DocID = d.DocID ∧ r.FileName = d.FileName ∧ r.SenderNode = d.SenderNode ∧
        r.RecipientNode = d.RecipientNode ∧ r.Status = d.Status ∧
        r.Timestamp = d.Timestamp ∧ r.IPFSHash = "RESTRICTED" ∧
        r.AllowedViewers = [] ∧ r.ApprovalNodes = [] ∧ r.RejectionReason = "" ∧
        r.RejectedBy = "" ∧ r.SenderFaction = "" ∧ r.RecipientFaction = "" ∧
        r.Messages = []) ∧
      (d.IPFSHash ≠ "RESTRICTED" → (r = d ↔ canViewDocument requestingNode d = true)) := by
  cases hc : canViewDocument requestingNode d with
  | true =>
    refine ⟨d, ?_, fun _ => rfl, fun h => by simp at h, fun _ => by simp⟩
    simp [GetDocumentById, GetState, hread, hd, hc]
  | false =>
    refine ⟨limitedDoc d, ?_, fun h => by simp at h, fun _ => ?_, fun hne => ?_⟩
    · simp [GetDocumentById, GetState, hread, hd, hc]
    · simp [limitedDoc]
    · constructor
      · intro h
        exact absurd (congrArg Document.IPFSHash h).symm hne
      · intro h
        simp at h

/-- C2, at the spec's first scenario: a third node gets the redacted view. -/
theorem GetDocumentById_view_witness :
    env1.getStateErr (goBytes "doc1") = none ∧
    lookupKey (goBytes "doc1") [(goBytes "doc1", Value.json doc1)] = some (.json doc1) ∧
    ∃ r, GetDocumentById env1 [(goBytes "doc1", Value.json doc1)] (goBytes "doc1")
        (goBytes "dest-station")
      = (.ok r, [(goBytes "doc1", Value.json doc1)]) ∧ r.IPFSHash = "RESTRICTED" :=
  ⟨rfl, by decide,
    (GetDocumentById_view env1 [(goBytes "doc1", Value.json doc1)] (goBytes "doc1")
      (goBytes "dest-station") doc1 rfl
      (by decide)).imp (fun _ h => ⟨h.1, (h.2.2.1 (by decide)).2.2.2.2.2.2.1⟩)⟩

/-- C3, refuted as stated: the approver `badNode` is not valid UTF-8 (it
starts with the byte 0xff); the approval of `doc1` by it succeeds, and the
approval node and the message sender stored are `badNodeStored`, in which
U+FFFD stands for that byte, not the argument. -/
theorem approver_stored_altered :
    lookupKey (goBytes "doc1") submittedStore = some (.json doc1) ∧
    (ApproveDocument env1 submittedStore (goBytes "doc1") badNode (goBytes "ok")).1 = .ok () ∧
    lookupKey (goBytes "doc1")
      (ApproveDocument env1 submittedStore (goBytes "doc1") badNode (goBytes "ok")).2
      = some (.json badApprovedDoc1) ∧
    badApprovedDoc1.ApprovalNodes.map goBytes = [badNodeStored] ∧
    badApprovedDoc1.Messages.map (fun m => goBytes m.From) = [badNodeStored] ∧
    badNodeStored ≠ badNode :=
  ⟨by decide, by decide, by decide, by decide, by decide, by decide⟩

/-- C3, amended: on a store that holds a decodable document `d` at `docID`,
whatever its status and whoever approves, a successful `ApproveDocument`
leaves at `docID` a document with status "approved", with the stored form of
`approverNode` appended at the end of `d`'s approval nodes (one entry more),
with the full node list of `getAllNodes` as allowed viewers, and with `d`'s
messages followed by one new message to `d`'s sender of type "approval" whose
sender and text are the stored forms of `approverNode` and of the given text.
The stored form of an argument is the string `encoding/json` writes for it:
the argument itself when it is valid UTF-8, otherwise the argument with every
byte that starts no well-formed sequence replaced by U+FFFD. -/
theorem ApproveDocument_effect (env : Env) (st : Store)
    (docID approverNode message : GoString) (d : Document)
    (hd : lookupKey docID st = some (.json d))
    (hok : (ApproveDocument env st docID approverNode message).1 = .ok ()) :
    ∃ d', lookupKey docID (ApproveDocument env st docID approverNode message).2
        = some (.json d') ∧
      d'.Status = "approved" ∧
      d'.ApprovalNodes = d.ApprovalNodes ++ [jsonString approverNode] ∧
      d'.ApprovalNodes.length = d.ApprovalNodes.length + 1 ∧
      d'.AllowedViewers = getAllNodes ∧
      ∃ m, d'.Messages = d.Messages ++ [m] ∧ m.From = jsonString approverNode ∧
        m.To = d.SenderNode ∧ m.Type_ = "approval" ∧ m.Message = jsonString message ∧
        (∀ a : String, approverNode = goBytes a →
          d'.ApprovalNodes = d.ApprovalNodes ++ [a] ∧ m.From = a) ∧
        (∀ t : String, message = goBytes t → m.Message = t) := by
  unfold ApproveDocument at hok ⊢
  unfold GetState PutState at hok ⊢
  cases hg : env.getStateErr docID with
  | some e => simp [hg] at hok
  | none =>
    cases hp : env.putStateErr docID with
    | some e => simp [hg, hd, hp] at hok
    | none =>
      simp only [hg, hd, hp]
      refine ⟨_, lookupKey_insertKey_self _ _ _, rfl, rfl, by simp, rfl, _, rfl, rfl, rfl, rfl,
        rfl, fun a ha => ?_, fun t ht => ?_⟩
      · subst ha
        simp only [jsonString_goBytes, and_self]
      · subst ht
        simp only [jsonString_goBytes]

/-- C3 amended, at the spec's third scenario: the recipient approves `doc1`. -/
theorem ApproveDocument_effect_witness :
    lookupKey (goBytes "doc1") [(goBytes "doc1", Value.json doc1)] = some (.json doc1) ∧
    (ApproveDocument env1 [(goBytes "doc1", Value.json doc1)] (goBytes "doc1")
      (goBytes "dest-customs") (goBytes "looks good")).1 = .ok () ∧
    ∃ d', lookupKey (goBytes "doc1")
        (ApproveDocument env1 [(goBytes "doc1", Value.json doc1)] (goBytes "doc1")
          (goBytes "dest-customs") (goBytes "looks good")).2
        = some (.json d') ∧ d'.Status = "approved" ∧
      d'.ApprovalNodes = doc1.ApprovalNodes ++ ["dest-customs"] :=
  ⟨by decide, by decide,
    (ApproveDocument_effect env1 [(goBytes "doc1", Value.json doc1)] (goBytes "doc1")
      (goBytes "dest-customs") (goBytes "looks good")
      doc1 (by decide) (by decide)).imp
      (fun _ h => ⟨h.1, h.2.1,
        h.2.2.2.2.2.elim (fun _ hm => (hm.2.2.2.2.2.1 "dest-customs" rfl).1)⟩)⟩

/-- C4, refuted as stated: the rejecter `badNode` is not valid UTF-8; the
rejection of `doc1` by it succeeds, and the rejectedBy stored is
`badNodeStored`, in which U+FFFD stands for the byte 0xff, not the argument;
the same happens to the reason. -/
theorem rejecter_stored_altered :
    lookupKey (goBytes "doc1") submittedStore = some (.json doc1) ∧
    (RejectDocument env1 submittedStore (goBytes "doc1") badNode badNode).1 = .ok () ∧
    lookupKey (goBytes "doc1")
      (RejectDocument env1 submittedStore (goBytes "doc1") badNode badNode).2
      = some (.json badRejectedDoc1) ∧
    goBytes badRejectedDoc1.RejectedBy = badNodeStored ∧
    goBytes badRejectedDoc1.RejectionReason = badNodeStored ∧
    badNodeStored ≠ badNode :=
  ⟨by decide, by decide, by decide, by decide, by decide, by decide⟩

/-- C4, amended: on a store that holds a decodable document `d` at `docID`, a
successful `RejectDocument` leaves at `docID` a document with status
"rejected", with rejectedBy and rejectionReason the stored forms of
`rejecterNode` and `reason`, and with `d`'s messages followed by one new
message to `d`'s sender of type "rejection" whose sender is the stored form of
`rejecterNode` and whose text is "Document rejected: " followed by the stored
form of `reason`. The stored form of an argument is the string
`encoding/json` writes for it: the argument itself when it is valid UTF-8,
otherwise the argument with every byte that starts no well-formed sequence
replaced by U+FFFD. -/
theorem RejectDocument_effect (env : Env) (st : Store)
    (docID rejecterNode reason : GoString) (d : Document)
    (hd : lookupKey docID st = some (.json d))
    (hok : (RejectDocument env st docID rejecterNode reason).1 = .ok ()) :
    ∃ d', lookupKey docID (RejectDocument env st docID rejecterNode reason).2
        = some (.json d') ∧
      d'.Status = "rejected" ∧ d'.RejectedBy = jsonString rejecterNode ∧
      d'.RejectionReason = jsonString reason ∧
      (∀ a : String, rejecterNode = goBytes a → d'.RejectedBy = a) ∧
      (∀ t : String, reason = goBytes t → d'.RejectionReason = t) ∧
      ∃ m, d'.Messages = d.Messages ++ [m] ∧ m.From = jsonString rejecterNode ∧
        m.To = d.SenderNode ∧ m.Type_ = "rejection" ∧
        m.Message = "Document rejected: " ++ jsonString reason ∧
        (∀ a : String, rejecterNode = goBytes a → m.From = a) ∧
        (∀ t : String, reason = goBytes t → m.Message = "Document rejected: " ++ t) := by
  unfold RejectDocument at hok ⊢
  unfold GetState PutState at hok ⊢
  cases hg : env.getStateErr docID with
  | some e => simp [hg] at hok
  | none =>
    cases hp : env.putStateErr docID with
    | some e => simp [hg, hd, hp] at hok
    | none =>
      simp only [hg, hd, hp]
      refine ⟨_, lookupKey_insertKey_self _ _ _, rfl, rfl, rfl, fun a ha => ?_, fun t ht => ?_,
        _, rfl, rfl, rfl, rfl, jsonString_goBytes_append _ _, fun a ha => ?_, fun t ht => ?_⟩
      · subst ha
        exact jsonString_goBytes a
      · subst ht
        exact jsonString_goBytes t
      · subst ha
        exact jsonString_goBytes a
      · subst ht
        show jsonString (goBytes "Document rejected: " ++ goBytes t) = _
        rw [jsonString_goBytes_append, jsonString_goBytes]

/-- C4 amended, at the spec's last scenario: a border node rejects `doc1`. -/
theorem RejectDocument_effect_witness :
    lookupKey (goBytes "doc1") [(goBytes "doc1", Value.json doc1)] = some (.json doc1) ∧
    (RejectDocument env1 [(goBytes "doc1", Value.json doc1)] (goBytes "doc1")
      (goBytes "dest-border") (goBytes "missing signature")).1 = .ok () ∧
    ∃ d', lookupKey (goBytes "doc1")
        (RejectDocument env1 [(goBytes "doc1", Value.json doc1)] (goBytes "doc1")
          (goBytes "dest-border") (goBytes "missing signature")).2 = some (.json d') ∧
      d'.Status = "rejected" ∧ d'.RejectedBy = "dest-border" ∧
      d'.RejectionReason = "missing signature" :=
  ⟨by decide, by decide,
    (RejectDocument_effect env1 [(goBytes "doc1", Value.json doc1)] (goBytes "doc1")
      (goBytes "dest-border") (goBytes "missing signature") doc1 (by decide) (by decide)).imp
      (fun _ h => ⟨h.1, h.2.1, h.2.2.2.2.1 "dest-border" rfl,
        h.2.2.2.2.2.1 "missing signature" rfl⟩)⟩

/-- C5, refuted as stated: the sender `badNode` is not valid UTF-8 (it starts
with the byte 0xff); the submission succeeds, and the senderNode of the record
stored at "doc1" is `badNodeStored`, in which U+FFFD stands for that byte, not
the argument. -/
theorem sender_stored_altered :
    (SubmitDocument env0 [] (goBytes "doc1") (goBytes "f.pdf") badNode
      (goBytes "dest-customs") (goBytes "[]") (goBytes "hash1")).1 = .ok () ∧
    lookupKey (goBytes "doc1")
      (SubmitDocument env0 [] (goBytes "doc1") (goBytes "f.pdf") badNode
        (goBytes "dest-customs") (goBytes "[]") (goBytes "hash1")).2
      = some (.json badSubmittedDoc1) ∧
    goBytes badSubmittedDoc1.SenderNode = badNodeStored ∧
    badNodeStored ≠ badNode :=
  ⟨by decide, by decide, by decide, by decide⟩

/-- C5, amended: whatever the store holds, when `SubmitDocument` succeeds the
record at `docID` afterwards is a document whose docID, fileName, senderNode,
recipientNode and ipfsHash are the stored forms of the arguments, with status
"pending", no approval nodes, no messages, empty rejectionReason and
rejectedBy, and the factions `getFaction` gives for sender and recipient; the
record under every other key is the one held before. The stored form of an
argument is the string `encoding/json` writes for it: the argument itself
when it is valid UTF-8, otherwise the argument with every byte that starts no
well-formed sequence replaced by U+FFFD. -/
theorem SubmitDocument_effect (env : Env) (st : Store)
    (docID fileName senderNode recipientNode allowedViewers ipfsHash : GoString)
    (hok : (SubmitDocument env st docID fileName senderNode recipientNode allowedViewers
      ipfsHash).1 = .ok ()) :
    ∃ d, lookupKey docID (SubmitDocument env st docID fileName senderNode recipientNode
        allowedViewers ipfsHash).2 = some (.json d) ∧
      d.DocID = jsonString docID ∧ d.FileName = jsonString fileName ∧
      d.SenderNode = jsonString senderNode ∧ d.RecipientNode = jsonString recipientNode ∧
      d.IPFSHash = jsonString ipfsHash ∧
      (∀ s : String, docID = goBytes s → d.DocID = s) ∧
      (∀ s : String, fileName = goBytes s → d.FileName = s) ∧
      (∀ s : String, senderNode = goBytes s → d.SenderNode = s) ∧
      (∀ s : String, recipientNode = goBytes s → d.RecipientNode = s) ∧
      (∀ s : String, ipfsHash = goBytes s → d.IPFSHash = s) ∧
      d.Status = "pending" ∧
      d.ApprovalNodes = [] ∧ d.Messages = [] ∧ d.RejectionReason = "" ∧ d.RejectedBy = "" ∧
      getFaction senderNode = .ok d.SenderFaction ∧
      getFaction recipientNode = .ok d.RecipientFaction ∧
      ∀ other, other ≠ docID →
        lookupKey other (SubmitDocument env st docID fileName senderNode recipientNode
          allowedViewers ipfsHash).2 = lookupKey other st := by
  unfold SubmitDocument at hok ⊢
  unfold PutState at hok ⊢
  cases hs : getFaction senderNode with
  | error f => simp [hs] at hok
  | ok sf =>
    cases hr : getFaction recipientNode with
    | error f => simp [hs, hr] at hok
    | ok rf =>
      cases hp : env.putStateErr docID with
      | some e => simp [hs, hr, hp] at hok
      | none =>
        simp only [hp]
        exact ⟨_, lookupKey_insertKey_self _ _ _, rfl, rfl, rfl, rfl, rfl,
          fun s h => h ▸ jsonString_goBytes s, fun s h => h ▸ jsonString_goBytes s,
          fun s h => h ▸ jsonString_goBytes s, fun s h => h ▸ jsonString_goBytes s,
          fun s h => h ▸ jsonString_goBytes s, rfl, rfl, rfl, rfl, rfl,
          rfl, rfl, fun other hne => lookupKey_insertKey_of_ne _ _ _ _ hne⟩

/-- C5 amended, at a store that already holds a record at "doc1": the
resubmission replaces it. -/
theorem SubmitDocument_effect_witness :
    (SubmitDocument env1 [(goBytes "doc1", Value.malformed (goBytes "old"))] (goBytes "doc1")
      (goBytes "f.pdf") (goBytes "origin-station") (goBytes "dest-customs") (goBytes "[]")
      (goBytes "hash1")).1 = .ok () ∧
    ∃ d, lookupKey (goBytes "doc1")
        (SubmitDocument env1 [(goBytes "doc1", Value.malformed (goBytes "old"))]
          (goBytes "doc1") (goBytes "f.pdf") (goBytes "origin-station")
          (goBytes "dest-customs") (goBytes "[]") (goBytes "hash1")).2 = some (.json d) ∧
      d.SenderNode = "origin-station" ∧ d.Status = "pending" :=
  ⟨by decide,
    (SubmitDocument_effect env1 [(goBytes "doc1", Value.malformed (goBytes "old"))]
      (goBytes "doc1") (goBytes "f.pdf") (goBytes "origin-station") (goBytes "dest-customs")
      (goBytes "[]") (goBytes "hash1") (by decide)).imp
      (fun _ h => ⟨h.1, h.2.2.2.2.2.2.2.2.1 "origin-station" rfl,
        h.2.2.2.2.2.2.2.2.2.2.2.1⟩)⟩

/-- C6: on a store that holds no record at `docID` (read by a `GetState` that
does not fail) each of `GetDocumentById`, `ApproveDocument` and
`RejectDocument` fails with the error "the document ... does not exist" and
the store afterwards is the store before. -/
theorem absent_document_not_found (env : Env) (st : Store) (docID node text : GoString)
    (hread : env.getStateErr docID = none) (habsent : lookupKey docID st = none) :
    GetDocumentById env st docID node
      = (.error (.error (goBytes "the document " ++ docID ++ goBytes " does not exist")),
          st) ∧
    ApproveDocument env st docID node text
      = (.error (.error (goBytes "the document " ++ docID ++ goBytes " does not exist")),
          st) ∧
    RejectDocument env st docID node text
      = (.error (.error (goBytes "the document " ++ docID ++ goBytes " does not exist")),
          st) := by
  refine ⟨?_, ?_, ?_⟩
  · simp [GetDocumentById, GetState, hread, habsent]
  · simp [ApproveDocument, GetState, hread, habsent]
  · simp [RejectDocument, GetState, hread, habsent]

/-- C6, at a store that holds only "doc1": the calls on "doc2" fail and write
nothing. -/
theorem absent_document_not_found_witness :
    env1.getStateErr (goBytes "doc2") = none ∧
    lookupKey (goBytes "doc2") [(goBytes "doc1", Value.json doc1)] = none ∧
    GetDocumentById env1 [(goBytes "doc1", Value.json doc1)] (goBytes "doc2")
        (goBytes "dest-border")
      = (.error (.error (goBytes "the document doc2 does not exist")),
          [(goBytes "doc1", Value.json doc1)]) ∧
    ApproveDocument env1 [(goBytes "doc1", Value.json doc1)] (goBytes "doc2")
        (goBytes "dest-border") (goBytes "ok")
      = (.error (.error (goBytes "the document doc2 does not exist")),
          [(goBytes "doc1", Value.json doc1)]) ∧
    RejectDocument env1 [(goBytes "doc1", Value.json doc1)] (goBytes "doc2")
        (goBytes "dest-border") (goBytes "ok")
      = (.error (.error (goBytes "the document doc2 does not exist")),
          [(goBytes "doc1", Value.json doc1)]) :=
  ⟨rfl, by decide,
    absent_document_not_found env1 [(goBytes "doc1", Value.json doc1)] (goBytes "doc2")
      (goBytes "dest-border") (goBytes "ok") rfl (by decide)⟩

/-! ## The range-scan queries -/

/-- C7: when the iterator reports no error, `GetMessagesForNode` succeeds and
returns exactly the messages addressed to the node taken from the decodable
documents, document by document in scan order and in their order within each
document; the length is the sum over the documents of the number of their
messages addressed to the node, every returned message is addressed to the
node, and each such message is returned as many times as it occurs in the
documents. -/
theorem GetMessagesForNode_exact (env : Env) (st : Store) (nodeID : GoString)
    (hrange : env.rangeErr = none) (hnext : ∀ i, env.nextErr i = none) :
    ∃ msgs, GetMessagesForNode env st nodeID = (.ok msgs, st) ∧
      msgs = (decodable st).flatMap
        (fun d => d.Messages.filter (fun m => decide (goBytes m.To = nodeID))) ∧
      msgs.length = ((decodable st).map
        (fun d => (d.Messages.filter (fun m => decide (goBytes m.To = nodeID))).length)).sum ∧
      (∀ m ∈ msgs, goBytes m.To = nodeID) ∧
      (∀ m : NodeMessage, goBytes m.To = nodeID →
        msgs.count m = ((decodable st).map (fun d => d.Messages.count m)).sum) := by
  refine ⟨(decodable st).flatMap (addressedTo nodeID), ?_, rfl, ?_, ?_, ?_⟩
  · simp [GetMessagesForNode, hrange, messagesLoop_eq env nodeID hnext]
  · rw [List.length_flatMap]
    rfl
  · intro m hm
    obtain ⟨d, _, hmd⟩ := List.mem_flatMap.mp hm
    simpa using (List.mem_filter.mp hmd).2
  · intro m hm
    rw [List.count_flatMap]
    congr 1
    apply List.map_congr_left
    intro d _
    simp only [Function.comp, addressedTo]
    exact List.count_filter (by simpa using hm)

/-- C7, at `scanStore`: the two messages for "origin-station" are returned,
the undecodable record is passed over. -/
theorem GetMessagesForNode_exact_witness :
    env1.rangeErr = none ∧ (∀ i, env1.nextErr i = none) ∧
    ∃ msgs, GetMessagesForNode env1 scanStore (goBytes "origin-station")
        = (.ok msgs, scanStore) ∧
      msgs.length = 2 :=
  ⟨rfl, fun _ => rfl,
    (GetMessagesForNode_exact env1 scanStore (goBytes "origin-station") rfl
      (fun _ => rfl)).imp
      (fun _ h => ⟨h.1, h.2.2.1.trans (by decide)⟩)⟩

/-- C8: when the iterator reports no error, `GetDocumentsForNode` succeeds and
returns, in scan order, exactly the decodable documents whose sender is the
node, or whose recipient is the node, or that `canViewDocument` lets the node
view; every returned document is a document of the store as it is stored. -/
theorem GetDocumentsForNode_exact (env : Env) (st : Store) (nodeID : GoString)
    (hrange : env.rangeErr = none) (hnext : ∀ i, env.nextErr i = none) :
    ∃ docs, GetDocumentsForNode env st nodeID = (.ok docs, st) ∧
      docs = (decodable st).filter (fun d => decide
        (goBytes d.SenderNode = nodeID ∨ goBytes d.RecipientNode = nodeID ∨
          canViewDocument nodeID d = true)) ∧
      (∀ d ∈ docs, ∃ k, (k, Value.json d) ∈ st) := by
  refine ⟨_, ?_, rfl, ?_⟩
  · simp [GetDocumentsForNode, hrange, documentsLoop_eq env nodeID hnext]
  · intro d hd
    exact mem_decodable.mp (List.mem_filter.mp hd).1

/-- C8, at `scanStore`: "dest-rail" is listed the approved document only. -/
theorem GetDocumentsForNode_exact_witness :
    env1.rangeErr = none ∧ (∀ i, env1.nextErr i = none) ∧
    ∃ docs, GetDocumentsForNode env1 scanStore (goBytes "dest-rail")
        = (.ok docs, scanStore) ∧
      docs.length = 1 :=
  ⟨rfl, fun _ => rfl,
    (GetDocumentsForNode_exact env1 scanStore (goBytes "dest-rail") rfl (fun _ => rfl)).imp
      (fun _ h => ⟨h.1, by rw [h.2.1]; decide⟩)⟩

/-! ## Invariants of the reachable world states -/

theorem submittedStore_reachable (rejectArgs : GoString → GoString → Prop) :
    ReachableVia rejectArgs submittedStore :=
  ReachableVia.submit env0 [] (goBytes "doc1") (goBytes "f.pdf") (goBytes "origin-station")
      (goBytes "dest-customs") (goBytes "[]") (goBytes "hash1")
    ReachableVia.empty (by decide)

/-- C9: in every store reachable from the empty store by successful calls of
`SubmitDocument`, `ApproveDocument` and `RejectDocument`, every document with
status "approved" has the full node list of `getAllNodes` as allowed viewers. -/
theorem approved_allowedViewers (st : Store) (hreach : Reachable st) (k : GoString)
    (d : Document) (hm : (k, Value.json d) ∈ st) (hs : d.Status = "approved") :
    d.AllowedViewers = getAllNodes := by
  unfold Reachable at hreach
  induction hreach generalizing k d with
  | empty => simp at hm
  | submit env st docID fileName senderNode recipientNode allowedViewers ipfsHash _ hok ih =>
    obtain ⟨d0, hst, _, _, _, _, _, heq⟩ := SubmitDocument_ok hok
    rw [heq] at hm
    rcases mem_insertKey hm with h1 | h1
    · have hd : d = d0 := by simpa using (Prod.mk.inj h1).2
      rw [hd, hst] at hs
      exact absurd hs (by decide)
    · exact ih k d h1 hs
  | approve env st docID approverNode message _ hok ih =>
    obtain ⟨d0, _, heq⟩ := ApproveDocument_ok hok
    rw [heq] at hm
    rcases mem_insertKey hm with h1 | h1
    · have hd := (Prod.mk.inj h1).2
      simp only [Value.json.injEq] at hd
      rw [hd]
    · exact ih k d h1 hs
  | reject env st docID rejecterNode reason _ _ hok ih =>
    obtain ⟨d0, _, heq⟩ := RejectDocument_ok hok
    rw [heq] at hm
    rcases mem_insertKey hm with h1 | h1
    · have hd := (Prod.mk.inj h1).2
      simp only [Value.json.injEq] at hd
      rw [hd] at hs
      have hs' : ("rejected" : String) = "approved" := hs
      exact absurd hs' (by decide)
    · exact ih k d h1 hs

/-- C9, at the store in which `doc1` was submitted and then approved. -/
theorem approved_allowedViewers_witness :
    Reachable approvedStore ∧ (goBytes "doc1", Value.json approvedDoc1) ∈ approvedStore ∧
    approvedDoc1.Status = "approved" ∧ approvedDoc1.AllowedViewers = getAllNodes := by
  have hreach : Reachable approvedStore :=
    ReachableVia.approve env1 submittedStore (goBytes "doc1") (goBytes "dest-customs")
        (goBytes "looks good")
      (submittedStore_reachable _) (by decide)
  exact ⟨hreach, by decide, by decide,
    approved_allowedViewers approvedStore hreach (goBytes "doc1") approvedDoc1 (by decide)
        (by decide)⟩

/-- C10, refuted as stated: the store in which `doc1` was submitted and then
rejected with an empty rejecter and an empty reason is reachable, and its
document has status "rejected" with both rejectedBy and rejectionReason empty. -/
theorem rejected_with_blank_fields :
    Reachable blankRejectStore ∧ (goBytes "doc1", Value.json blankRejectDoc1) ∈ blankRejectStore ∧
    blankRejectDoc1.Status = "rejected" ∧ blankRejectDoc1.RejectedBy = "" ∧
    blankRejectDoc1.RejectionReason = "" :=
  ⟨ReachableVia.reject env1 submittedStore (goBytes "doc1") [] []
      (submittedStore_reachable _) trivial
      (by decide),
    by decide, by decide, by decide, by decide⟩

/-- C10, amended: in every store reachable from the empty store by successful
calls of `SubmitDocument`, `ApproveDocument` and `RejectDocument` in which
every call of `RejectDocument` is given a non-empty rejecter and a non-empty
reason, every document with status "rejected" has a non-empty rejectedBy and
a non-empty rejectionReason. -/
theorem rejected_fields_nonempty (st : Store)
    (hreach : ReachableVia (fun rejecterNode reason => rejecterNode ≠ [] ∧ reason ≠ []) st)
    (k : GoString) (d : Document) (hm : (k, Value.json d) ∈ st)
    (hs : d.Status = "rejected") :
    d.RejectedBy ≠ "" ∧ d.RejectionReason ≠ "" := by
  induction hreach generalizing k d with
  | empty => simp at hm
  | submit env st docID fileName senderNode recipientNode allowedViewers ipfsHash _ hok ih =>
    obtain ⟨d0, hst, _, _, _, _, _, heq⟩ := SubmitDocument_ok hok
    rw [heq] at hm
    rcases mem_insertKey hm with h1 | h1
    · have hd : d = d0 := by simpa using (Prod.mk.inj h1).2
      rw [hd, hst] at hs
      exact absurd hs (by decide)
    · exact ih k d h1 hs
  | approve env st docID approverNode message _ hok ih =>
    obtain ⟨d0, _, heq⟩ := ApproveDocument_ok hok
    rw [heq] at hm
    rcases mem_insertKey hm with h1 | h1
    · have hd := (Prod.mk.inj h1).2
      simp only [Value.json.injEq] at hd
      rw [hd] at hs
      have hs' : ("approved" : String) = "rejected" := hs
      exact absurd hs' (by decide)
    · exact ih k d h1 hs
  | reject env st docID rejecterNode reason _ hargs hok ih =>
    obtain ⟨d0, _, heq⟩ := RejectDocument_ok hok
    rw [heq] at hm
    rcases mem_insertKey hm with h1 | h1
    · have hd := (Prod.mk.inj h1).2
      simp only [Value.json.injEq] at hd
      rw [hd]
      exact ⟨jsonString_ne_empty _ hargs.1, jsonString_ne_empty _ hargs.2⟩
    · exact ih k d h1 hs

/-- C10 amended, at the store in which `doc1` was submitted and then rejected
by "dest-border" for "missing signature". -/
theorem rejected_fields_nonempty_witness :
    ReachableVia (fun rejecterNode reason => rejecterNode ≠ [] ∧ reason ≠ []) rejectedStore ∧
    (goBytes "doc1", Value.json rejectedDoc1) ∈ rejectedStore ∧ rejectedDoc1.Status = "rejected" ∧
    rejectedDoc1.RejectedBy ≠ "" ∧ rejectedDoc1.RejectionReason ≠ "" := by
  have hreach :
      ReachableVia (fun rejecterNode reason => rejecterNode ≠ [] ∧ reason ≠ []) rejectedStore :=
    ReachableVia.reject env1 submittedStore (goBytes "doc1") (goBytes "dest-border")
        (goBytes "missing signature")
      (submittedStore_reachable _) ⟨by decide, by decide⟩ (by decide)
  exact ⟨hreach, by decide, by decide,
    rejected_fields_nonempty rejectedStore hreach (goBytes "doc1") rejectedDoc1 (by decide)
        (by decide)⟩

theorem rejectedStore_reachable : Reachable rejectedStore :=
  ReachableVia.reject env1 submittedStore (goBytes "doc1") (goBytes "dest-border")
      (goBytes "missing signature")
    (submittedStore_reachable _) trivial (by decide)

/-- C11, refuted as stated: the store in which `doc1` was submitted, rejected
and then approved is reachable, and its document has status "approved" while
rejectedBy and rejectionReason still carry the values of the rejection. -/
theorem approved_with_rejection_fields :
    Reachable reapprovedStore ∧ (goBytes "doc1", Value.json reapprovedDoc1) ∈ reapprovedStore ∧
    reapprovedDoc1.Status = "approved" ∧ reapprovedDoc1.Status ≠ "rejected" ∧
    reapprovedDoc1.RejectedBy = "dest-border" ∧
    reapprovedDoc1.RejectionReason = "missing signature" :=
  ⟨ReachableVia.approve env1 rejectedStore (goBytes "doc1") (goBytes "dest-customs")
      (goBytes "looks good")
      rejectedStore_reachable (by decide),
    by decide, by decide, by decide, by decide, by decide⟩

/-- C11, amended: in every store reachable from the empty store by successful
calls of `SubmitDocument`, `ApproveDocument` and `RejectDocument`, every
document with status "pending" has empty rejectionReason and rejectedBy, and
so has every document, in particular every approved one, whose messages hold
no message of type "rejection" (it was not rejected since its submission). -/
theorem rejection_fields_empty (st : Store) (hreach : Reachable st) (k : GoString)
    (d : Document) (hm : (k, Value.json d) ∈ st) :
    (d.Status = "pending" → d.RejectionReason = "" ∧ d.RejectedBy = "") ∧
    ((∀ m ∈ d.Messages, m.Type_ ≠ "rejection") →
      d.RejectionReason = "" ∧ d.RejectedBy = "") := by
  unfold Reachable at hreach
  induction hreach generalizing k d with
  | empty => simp at hm
  | submit env st docID fileName senderNode recipientNode allowedViewers ipfsHash _ hok ih =>
    obtain ⟨d0, _, _, _, hrr, hrb, _, heq⟩ := SubmitDocument_ok hok
    rw [heq] at hm
    rcases mem_insertKey hm with h1 | h1
    · have hd : d = d0 := by simpa using (Prod.mk.inj h1).2
      rw [hd]
      exact ⟨fun _ => ⟨hrr, hrb⟩, fun _ => ⟨hrr, hrb⟩⟩
    · exact ih k d h1
  | approve env st docID approverNode message _ hok ih =>
    obtain ⟨d0, hl, heq⟩ := ApproveDocument_ok hok
    rw [heq] at hm
    rcases mem_insertKey hm with h1 | h1
    · have hd := (Prod.mk.inj h1).2
      simp only [Value.json.injEq] at hd
      rw [hd]
      refine ⟨fun hs => ?_, fun hno => ?_⟩
      · have hs' : ("approved" : String) = "pending" := hs
        exact absurd hs' (by decide)
      · have hno0 : ∀ m ∈ d0.Messages, m.Type_ ≠ "rejection" :=
          fun m hmem => hno m (List.mem_append_left _ hmem)
        exact (ih docID d0 (lookupKey_mem hl)).2 hno0
    · exact ih k d h1
  | reject env st docID rejecterNode reason _ _ hok ih =>
    obtain ⟨d0, _, heq⟩ := RejectDocument_ok hok
    rw [heq] at hm
    rcases mem_insertKey hm with h1 | h1
    · have hd := (Prod.mk.inj h1).2
      simp only [Value.json.injEq] at hd
      rw [hd]
      refine ⟨fun hs => ?_, fun hno => ?_⟩
      · have hs' : ("rejected" : String) = "pending" := hs
        exact absurd hs' (by decide)
      · exact absurd rfl (hno _ (List.mem_append_right _ (List.mem_singleton.mpr rfl)))
    · exact ih k d h1

/-- C11 amended, at the store in which `doc1` was submitted and then approved:
the approved document holds no rejection message and its rejection fields are
empty. -/
theorem rejection_fields_empty_witness :
    Reachable approvedStore ∧ (goBytes "doc1", Value.json approvedDoc1) ∈ approvedStore ∧
    (∀ m ∈ approvedDoc1.Messages, m.Type_ ≠ "rejection") ∧
    approvedDoc1.RejectionReason = "" ∧ approvedDoc1.RejectedBy = "" := by
  have hreach : Reachable approvedStore :=
    ReachableVia.approve env1 submittedStore (goBytes "doc1") (goBytes "dest-customs")
        (goBytes "looks good")
      (submittedStore_reachable _) (by decide)
  exact ⟨hreach, by decide, by decide,
    (rejection_fields_empty approvedStore hreach (goBytes "doc1") approvedDoc1 (by decide)).2
        (by decide)⟩

/-! ## Status transitions -/

/-- C12, refuted as stated: `doc1` is stored with status "rejected", a
following `ApproveDocument` on it succeeds, and the document stored afterwards
has status "approved". -/
theorem status_changes_after_decision :
    lookupKey (goBytes "doc1") rejectedStore = some (.json rejectedDoc1) ∧
    rejectedDoc1.Status = "rejected" ∧
    (ApproveDocument env1 rejectedStore (goBytes "doc1") (goBytes "dest-customs")
        (goBytes "looks good")).1 = .ok () ∧
    lookupKey (goBytes "doc1") (ApproveDocument env1 rejectedStore (goBytes "doc1")
        (goBytes "dest-customs")
        (goBytes "looks good")).2
      = some (.json reapprovedDoc1) ∧
    reapprovedDoc1.Status = "approved" ∧ reapprovedDoc1.Status ≠ rejectedDoc1.Status :=
  ⟨by decide, by decide, by decide, by decide, by decide, by decide⟩

/-- C12, amended: the status is not monotonic. For every stored decodable
document, whatever its status, a successful `ApproveDocument` leaves it with
status "approved" and a successful `RejectDocument` with status "rejected",
and a failing call leaves the store as it was. So the status of an approved
document is kept by a further `ApproveDocument`, that of a rejected document
by a further `RejectDocument`, and both by any failing call. -/
theorem status_after_decision (env : Env) (st : Store) (docID node text : GoString)
    (d : Document) (hd : lookupKey docID st = some (.json d)) :
    ((ApproveDocument env st docID node text).1 = .ok () →
      ∃ d', lookupKey docID (ApproveDocument env st docID node text).2 = some (.json d') ∧
        d'.Status = "approved" ∧ (d.Status = "approved" → d'.Status = d.Status)) ∧
    ((RejectDocument env st docID node text).1 = .ok () →
      ∃ d', lookupKey docID (RejectDocument env st docID node text).2 = some (.json d') ∧
        d'.Status = "rejected" ∧ (d.Status = "rejected" → d'.Status = d.Status)) ∧
    ((ApproveDocument env st docID node text).1 ≠ .ok () →
      (ApproveDocument env st docID node text).2 = st) ∧
    ((RejectDocument env st docID node text).1 ≠ .ok () →
      (RejectDocument env st docID node text).2 = st) := by
  refine ⟨fun hok => ?_, fun hok => ?_, fun hfail => ?_, fun hfail => ?_⟩
  · obtain ⟨d0, _, heq⟩ := ApproveDocument_ok hok
    rw [heq]
    exact ⟨_, lookupKey_insertKey_self _ _ _, rfl, fun h => h.symm⟩
  · obtain ⟨d0, _, heq⟩ := RejectDocument_ok hok
    rw [heq]
    exact ⟨_, lookupKey_insertKey_self _ _ _, rfl, fun h => h.symm⟩
  · unfold ApproveDocument GetState PutState at hfail ⊢
    cases hg : env.getStateErr docID with
    | some e => simp
    | none =>
      cases hp : env.putStateErr docID with
      | some e => simp [hd]
      | none => simp [hg, hd, hp] at hfail
  · unfold RejectDocument GetState PutState at hfail ⊢
    cases hg : env.getStateErr docID with
    | some e => simp
    | none =>
      cases hp : env.putStateErr docID with
      | some e => simp [hd]
      | none => simp [hg, hd, hp] at hfail

/-- C12 amended, at the store in which `doc1` is approved: a second approval
succeeds and the status stays "approved". -/
theorem status_after_decision_witness :
    lookupKey (goBytes "doc1") approvedStore = some (.json approvedDoc1) ∧
    (ApproveDocument env1 approvedStore (goBytes "doc1") (goBytes "dest-rail")
        (goBytes "seen")).1 = .ok () ∧
    ∃ d', lookupKey (goBytes "doc1") (ApproveDocument env1 approvedStore (goBytes "doc1")
        (goBytes "dest-rail")
          (goBytes "seen")).2
        = some (.json d') ∧ d'.Status = "approved" :=
  ⟨by decide, by decide,
    ((status_after_decision env1 approvedStore (goBytes "doc1") (goBytes "dest-rail")
        (goBytes "seen") approvedDoc1
      (by decide)).1 (by decide)).imp (fun _ h => ⟨h.1, h.2.1⟩)⟩

/-! ## The faction lookup -/

/-- C13, refuted as stated: on the three-byte identifier "abc" and on "dest"
(which has the destination prefix) `getFaction` ends in the runtime panic of
the out-of-range slice, not in an error it returns; on "north-rail", which has
no known prefix, it does not fail but returns the destination faction. -/
theorem getFaction_faults_and_defaults :
    getFaction (goBytes "abc") = .error (.sliceBounds 6 3) ∧
    getFaction (goBytes "dest") = .error (.sliceBounds 6 4) ∧
    getFaction (goBytes "north-rail") = .ok "DestOrgMSP" :=
  ⟨by decide, by decide, by decide⟩

/-- C13, amended: on every identifier of at least six bytes `getFaction`
returns without fault, the origin faction exactly when the first six bytes are
"origin" and the destination faction otherwise; so it returns the origin
faction for every identifier with the origin prefix and the destination
faction for every such identifier with the destination prefix, and also for
one with no known prefix. -/
theorem getFaction_of_six_bytes (nodeID : GoString) (hlen : 6 ≤ nodeID.length) :
    (getFaction nodeID = .ok "OriginOrgMSP" ∨ getFaction nodeID = .ok "DestOrgMSP") ∧
    (getFaction nodeID = .ok "OriginOrgMSP" ↔ nodeID.take 6 = goBytes "origin") ∧
    (getFaction nodeID = .ok "DestOrgMSP" ↔ nodeID.take 6 ≠ goBytes "origin") ∧
    (∀ rest, nodeID = goBytes "origin" ++ rest → getFaction nodeID = .ok "OriginOrgMSP") ∧
    (∀ rest, nodeID = goBytes "dest" ++ rest → getFaction nodeID = .ok "DestOrgMSP") := by
  have hnot : ¬ nodeID.length < 6 := Nat.not_lt.mpr hlen
  by_cases hp : nodeID.take 6 = goBytes "origin"
  · have hres : getFaction nodeID = .ok "OriginOrgMSP" := by
      unfold getFaction
      rw [if_neg hnot, if_pos hp]
    refine ⟨Or.inl hres, ⟨fun _ => hp, fun _ => hres⟩, ?_, fun _ _ => hres, ?_⟩
    · rw [hres]
      constructor
      · intro h
        exact absurd h (by decide)
      · intro h
        exact absurd hp h
    · intro rest hrest
      exfalso
      rw [hrest, goBytes_dest, goBytes_origin] at hp
      simp at hp
  · have hres : getFaction nodeID = .ok "DestOrgMSP" := by
      unfold getFaction
      rw [if_neg hnot, if_neg hp]
    refine ⟨Or.inr hres, ?_, ⟨fun _ => hp, fun _ => hres⟩, ?_, fun _ _ => hres⟩
    · rw [hres]
      constructor
      · intro h
        exact absurd h (by decide)
      · intro h
        exact absurd h hp
    · intro rest hrest
      exfalso
      apply hp
      rw [hrest, goBytes_origin]
      simp

/-- C13 amended, at "origin-rail". -/
theorem getFaction_of_six_bytes_witness :
    6 ≤ (goBytes "origin-rail").length ∧
    getFaction (goBytes "origin-rail") = .ok "OriginOrgMSP" :=
  ⟨by decide,
    (getFaction_of_six_bytes (goBytes "origin-rail") (by decide)).2.2.2.1 (goBytes "-rail")
      (by decide)⟩

/-- C14, evaluated where it fails: with the three-byte sender "abc", and
likewise with an empty recipient, `SubmitDocument` ends in the runtime panic
of `getFaction` and writes nothing, although the store write for "doc1" would
not fail. -/
theorem SubmitDocument_short_node_panics :
    env1.putStateErr (goBytes "doc1") = none ∧
    SubmitDocument env1 [] (goBytes "doc1") (goBytes "f.pdf") (goBytes "abc")
        (goBytes "dest-customs") (goBytes "[]") (goBytes "hash1")
      = (.error (.sliceBounds 6 3), []) ∧
    SubmitDocument env1 [] (goBytes "doc1") (goBytes "f.pdf") (goBytes "origin-station") []
        (goBytes "[]") (goBytes "hash1")
      = (.error (.sliceBounds 6 0), []) :=
  ⟨rfl, by decide, by decide⟩

/-! ## Frame properties of the decisions -/

/-- C15: on a store that holds a decodable document `d` at `docID`, after a
successful `RejectDocument` the stored document has the allowed viewers of
`d`, every node that can view it could view `d`, and for a node that could not
view `d` a following `GetDocumentById` (whose read does not fail) returns the
redacted view, with ipfsHash "RESTRICTED" and status "rejected". -/
theorem RejectDocument_keeps_visibility (env : Env) (st : Store)
    (docID rejecterNode reason : GoString) (d : Document)
    (hd : lookupKey docID st = some (.json d))
    (hok : (RejectDocument env st docID rejecterNode reason).1 = .ok ()) :
    ∃ d', lookupKey docID (RejectDocument env st docID rejecterNode reason).2
        = some (.json d') ∧
      d'.AllowedViewers = d.AllowedViewers ∧
      (∀ n, canViewDocument n d' = true → canViewDocument n d = true) ∧
      (∀ (env' : Env) (n : GoString), env'.getStateErr docID = none →
        canViewDocument n d = false →
        ∃ r, GetDocumentById env' (RejectDocument env st docID rejecterNode reason).2 docID n
            = (.ok r, (RejectDocument env st docID rejecterNode reason).2) ∧
          r = limitedDoc d' ∧ r.IPFSHash = "RESTRICTED" ∧ r.Status = "rejected") := by
  obtain ⟨d0, hl, heq⟩ := RejectDocument_ok hok
  have hd0 : d0 = d := by
    rw [hd] at hl
    simpa using hl.symm
  subst hd0
  rw [heq]
  refine ⟨_, lookupKey_insertKey_self _ _ _, rfl,
    fun n h => canViewDocument_of_rejected n _ d0 h rfl rfl rfl rfl, ?_⟩
  intro env' n hread hno
  refine ⟨_, ?_, rfl, rfl, rfl⟩
  have hno' : canViewDocument n
      { d0 with
        Status := "rejected"
        RejectedBy := jsonString rejecterNode
        RejectionReason := jsonString reason
        Messages := d0.Messages ++
          [{ From := jsonString rejecterNode, To := d0.SenderNode,
             Message := jsonString (goBytes "Document rejected: " ++ reason),
             Type_ := "rejection", Timestamp := env.now }] } = false := by
    rw [← Bool.not_eq_true]
    intro hc
    rw [canViewDocument_of_rejected n _ d0 hc rfl rfl rfl rfl] at hno
    exact absurd hno (by decide)
  simp [GetDocumentById, GetState, hread, lookupKey_insertKey_self, hno']

/-- C15, at the spec's last scenario: after the rejection of `doc1` a third
node still gets the redacted view. -/
theorem RejectDocument_keeps_visibility_witness :
    lookupKey (goBytes "doc1") submittedStore = some (.json doc1) ∧
    (RejectDocument env1 submittedStore (goBytes "doc1") (goBytes "dest-border")
        (goBytes "missing signature")).1 = .ok () ∧
    ∃ d', lookupKey (goBytes "doc1")
        (RejectDocument env1 submittedStore (goBytes "doc1") (goBytes "dest-border")
          (goBytes "missing signature")).2
        = some (.json d') ∧ d'.AllowedViewers = doc1.AllowedViewers :=
  ⟨by decide, by decide,
    (RejectDocument_keeps_visibility env1 submittedStore (goBytes "doc1") (goBytes "dest-border")
      (goBytes "missing signature") doc1 (by decide) (by decide)).imp (fun _ h => ⟨h.1, h.2.1⟩)⟩

/-- C16: on a store that holds a decodable document `d` at `docID`, a
successful `ApproveDocument` or `RejectDocument` leaves the document with the
docID, fileName, ipfsHash, senderNode, recipientNode, senderFaction,
recipientFaction and timestamp of `d`; `RejectDocument` also leaves the
approval nodes of `d`; in both cases the record under every other key is the
one held before. -/
theorem decision_frame (env : Env) (st : Store) (docID node text : GoString) (d : Document)
    (hd : lookupKey docID st = some (.json d)) :
    ((ApproveDocument env st docID node text).1 = .ok () →
      ∃ d', lookupKey docID (ApproveDocument env st docID node text).2 = some (.json d') ∧
        d'.DocID = d.DocID ∧ d'.FileName = d.FileName ∧ d'.IPFSHash = d.IPFSHash ∧
        d'.SenderNode = d.SenderNode ∧ d'.RecipientNode = d.RecipientNode ∧
        d'.SenderFaction = d.SenderFaction ∧ d'.RecipientFaction = d.RecipientFaction ∧
        d'.Timestamp = d.Timestamp ∧
        ∀ other, other ≠ docID →
          lookupKey other (ApproveDocument env st docID node text).2 = lookupKey other st) ∧
    ((RejectDocument env st docID node text).1 = .ok () →
      ∃ d', lookupKey docID (RejectDocument env st docID node text).2 = some (.json d') ∧
        d'.DocID = d.DocID ∧ d'.FileName = d.FileName ∧ d'.IPFSHash = d.IPFSHash ∧
        d'.SenderNode = d.SenderNode ∧ d'.RecipientNode = d.RecipientNode ∧
        d'.SenderFaction = d.SenderFaction ∧ d'.RecipientFaction = d.RecipientFaction ∧
        d'.Timestamp = d.Timestamp ∧ d'.ApprovalNodes = d.ApprovalNodes ∧
        ∀ other, other ≠ docID →
          lookupKey other (RejectDocument env st docID node text).2 = lookupKey other st) := by
  constructor
  · intro hok
    obtain ⟨d0, hl, heq⟩ := ApproveDocument_ok hok
    have hd0 : d0 = d := by
      rw [hd] at hl
      simpa using hl.symm
    subst hd0
    rw [heq]
    exact ⟨_, lookupKey_insertKey_self _ _ _, rfl, rfl, rfl, rfl, rfl, rfl, rfl, rfl,
      fun other hne => lookupKey_insertKey_of_ne _ _ _ _ hne⟩
  · intro hok
    obtain ⟨d0, hl, heq⟩ := RejectDocument_ok hok
    have hd0 : d0 = d := by
      rw [hd] at hl
      simpa using hl.symm
    subst hd0
    rw [heq]
    exact ⟨_, lookupKey_insertKey_self _ _ _, rfl, rfl, rfl, rfl, rfl, rfl, rfl, rfl, rfl,
      fun other hne => lookupKey_insertKey_of_ne _ _ _ _ hne⟩

/-- C16, at the store in which `doc1` is approved: a following rejection keeps
its approval nodes. -/
theorem decision_frame_witness :
    lookupKey (goBytes "doc1") approvedStore = some (.json approvedDoc1) ∧
    (RejectDocument env1 approvedStore (goBytes "doc1") (goBytes "dest-border")
        (goBytes "late")).1 = .ok () ∧
    ∃ d', lookupKey (goBytes "doc1") (RejectDocument env1 approvedStore (goBytes "doc1")
        (goBytes "dest-border")
          (goBytes "late")).2
        = some (.json d') ∧ d'.ApprovalNodes = approvedDoc1.ApprovalNodes :=
  ⟨by decide, by decide,
    ((decision_frame env1 approvedStore (goBytes "doc1") (goBytes "dest-border")
        (goBytes "late") approvedDoc1
      (by decide)).2 (by decide)).imp (fun _ h => ⟨h.1, h.2.2.2.2.2.2.2.2.2.1⟩)⟩

/-! ## Undecodable records and the listing rule -/

/-- C17: when the iterator reports no error, `GetDocumentsForNode` and
`GetMessagesForNode` succeed, and each returns exactly what it returns on the
store from which the records that do not decode have been removed. -/
theorem scans_skip_malformed (env : Env) (st : Store) (nodeID : GoString)
    (hrange : env.rangeErr = none) (hnext : ∀ i, env.nextErr i = none) :
    (∃ docs, GetDocumentsForNode env st nodeID = (.ok docs, st) ∧
      GetDocumentsForNode env (dropMalformed st) nodeID = (.ok docs, dropMalformed st)) ∧
    (∃ msgs, GetMessagesForNode env st nodeID = (.ok msgs, st) ∧
      GetMessagesForNode env (dropMalformed st) nodeID = (.ok msgs, dropMalformed st)) := by
  constructor
  · refine ⟨(decodable st).filter (fun d => decide
        (goBytes d.SenderNode = nodeID ∨ goBytes d.RecipientNode = nodeID ∨
          canViewDocument nodeID d = true)), ?_, ?_⟩
    · simp [GetDocumentsForNode, hrange, documentsLoop_eq env nodeID hnext]
    · simp [GetDocumentsForNode, hrange, documentsLoop_eq env nodeID hnext,
        decodable_dropMalformed]
  · refine ⟨(decodable st).flatMap (addressedTo nodeID), ?_, ?_⟩
    · simp [GetMessagesForNode, hrange, messagesLoop_eq env nodeID hnext]
    · simp [GetMessagesForNode, hrange, messagesLoop_eq env nodeID hnext,
        decodable_dropMalformed]

/-- C17, at `scanStore`, whose second record does not decode. -/
theorem scans_skip_malformed_witness :
    env1.rangeErr = none ∧ (∀ i, env1.nextErr i = none) ∧
    dropMalformed scanStore ≠ scanStore ∧
    ∃ msgs, GetMessagesForNode env1 scanStore (goBytes "origin-station") = (.ok msgs, scanStore) ∧
      GetMessagesForNode env1 (dropMalformed scanStore) (goBytes "origin-station")
        = (.ok msgs, dropMalformed scanStore) :=
  ⟨rfl, fun _ => rfl, by decide,
    (scans_skip_malformed env1 scanStore (goBytes "origin-station") rfl (fun _ => rfl)).2⟩

/-- C19: the inclusion test of `GetDocumentsForNode` (sender is the node, or
recipient is the node, or `canViewDocument`) holds exactly when
`canViewDocument` holds; so every document a successful `GetDocumentsForNode`
returns is one `canViewDocument` lets the node view, and a stored document
that `canViewDocument` denies the node (which `GetDocumentById` would redact)
is not in the list. -/
theorem listed_iff_viewable (env : Env) (st : Store) (nodeID : GoString) :
    (∀ d : Document,
      (goBytes d.SenderNode = nodeID ∨ goBytes d.RecipientNode = nodeID ∨
        canViewDocument nodeID d = true)
        ↔ canViewDocument nodeID d = true) ∧
    (∀ docs, (GetDocumentsForNode env st nodeID).1 = .ok docs →
      (∀ d ∈ docs, canViewDocument nodeID d = true) ∧
      (∀ d : Document, canViewDocument nodeID d = false → d ∉ docs)) := by
  have hiff : ∀ d : Document,
      (goBytes d.SenderNode = nodeID ∨ goBytes d.RecipientNode = nodeID ∨
        canViewDocument nodeID d = true)
        ↔ canViewDocument nodeID d = true := by
    intro d
    constructor
    · intro h
      unfold canViewDocument
      by_cases hs : d.Status = "approved"
      · simp [hs]
      · rcases h with h | h | h
        · simp [hs, h]
        · simp [hs, h]
        · unfold canViewDocument at h
          exact h
    · intro h
      exact Or.inr (Or.inr h)
  refine ⟨hiff, fun docs hres => ?_⟩
  have hall : ∀ d ∈ docs, canViewDocument nodeID d = true := by
    intro d hd
    unfold GetDocumentsForNode at hres
    cases hr : env.rangeErr with
    | some e => simp [hr] at hres
    | none =>
      simp only [hr] at hres
      rcases documentsLoop_mem env nodeID st 0 [] docs hres d hd with h | h
      · simp at h
      · exact (hiff d).mp h
  refine ⟨hall, fun d hno hd => ?_⟩
  rw [hall d hd] at hno
  exact absurd hno (by decide)

/-- C19, at `scanStore` and the node "dest-rail": the one listed document is
the approved one. -/
theorem listed_iff_viewable_witness :
    (GetDocumentsForNode env1 scanStore (goBytes "dest-rail")).1
      = .ok [{ doc1 with
          Status := "approved"
          Messages := [{ From := "dest-customs", To := "origin-station",
                         Message := "looks good", Type_ := "approval", Timestamp := "t1" }] }] ∧
    canViewDocument (goBytes "dest-rail") { doc1 with
          Status := "approved"
          Messages := [{ From := "dest-customs", To := "origin-station",
                         Message := "looks good", Type_ := "approval", Timestamp := "t1" }] }
      = true :=
  ⟨by decide,
    ((listed_iff_viewable env1 scanStore (goBytes "dest-rail")).2 _ (by decide)).1 _
      (List.mem_singleton.mpr rfl)⟩

/-! ## Invariants of the message log -/

/-- C18: in every store reachable from the empty store by successful calls of
`SubmitDocument`, `ApproveDocument` and `RejectDocument`, every message of
every document has type "approval" or "rejection" and is addressed to the
document's sender; a message of type "rejection" carries the text
`RejectDocument` writes ("Document rejected: " and a reason) and the sender of
a message of type "approval" is among the document's approval nodes. -/
theorem messages_typed_and_addressed (st : Store) (hreach : Reachable st) (k : GoString)
    (d : Document) (hm : (k, Value.json d) ∈ st) (m : NodeMessage) (hmsg : m ∈ d.Messages) :
    (m.Type_ = "approval" ∨ m.Type_ = "rejection") ∧ m.To = d.SenderNode ∧
    (m.Type_ = "rejection" → ∃ reason, m.Message = "Document rejected: " ++ reason) ∧
    (m.Type_ = "approval" → m.From ∈ d.ApprovalNodes) := by
  unfold Reachable at hreach
  induction hreach generalizing k d m with
  | empty => simp at hm
  | submit env st docID fileName senderNode recipientNode allowedViewers ipfsHash _ hok ih =>
    obtain ⟨d0, _, _, hmsgs, _, _, _, heq⟩ := SubmitDocument_ok hok
    rw [heq] at hm
    rcases mem_insertKey hm with h1 | h1
    · have hd : d = d0 := by simpa using (Prod.mk.inj h1).2
      rw [hd, hmsgs] at hmsg
      simp at hmsg
    · exact ih k d h1 m hmsg
  | approve env st docID approverNode message _ hok ih =>
    obtain ⟨d0, hl, heq⟩ := ApproveDocument_ok hok
    rw [heq] at hm
    rcases mem_insertKey hm with h1 | h1
    · have hd := (Prod.mk.inj h1).2
      simp only [Value.json.injEq] at hd
      rw [hd] at hmsg ⊢
      rcases List.mem_append.mp hmsg with h2 | h2
      · obtain ⟨ht, hto, hrej, happ⟩ := ih docID d0 (lookupKey_mem hl) m h2
        exact ⟨ht, hto, hrej, fun h => List.mem_append_left _ (happ h)⟩
      · rw [List.mem_singleton.mp h2]
        refine ⟨Or.inl rfl, rfl, fun h => ?_, fun _ => ?_⟩
        · have h' : ("approval" : String) = "rejection" := h
          exact absurd h' (by decide)
        · exact List.mem_append_right _ (List.mem_singleton.mpr rfl)
    · exact ih k d h1 m hmsg
  | reject env st docID rejecterNode reason _ _ hok ih =>
    obtain ⟨d0, hl, heq⟩ := RejectDocument_ok hok
    rw [heq] at hm
    rcases mem_insertKey hm with h1 | h1
    · have hd := (Prod.mk.inj h1).2
      simp only [Value.json.injEq] at hd
      rw [hd] at hmsg ⊢
      rcases List.mem_append.mp hmsg with h2 | h2
      · exact ih docID d0 (lookupKey_mem hl) m h2
      · rw [List.mem_singleton.mp h2]
        refine ⟨Or.inr rfl, rfl,
          fun _ => ⟨jsonString reason, jsonString_goBytes_append _ _⟩, fun h => ?_⟩
        have h' : ("rejection" : String) = "approval" := h
        exact absurd h' (by decide)
    · exact ih k d h1 m hmsg

/-- C18, at the store in which `doc1` was submitted, rejected and then
approved: its second message is the approval addressed to the sender. -/
theorem messages_typed_and_addressed_witness :
    Reachable reapprovedStore ∧ (goBytes "doc1", Value.json reapprovedDoc1) ∈ reapprovedStore ∧
    ({ From := "dest-customs", To := "origin-station", Message := "looks good",
       Type_ := "approval", Timestamp := "2024-01-02T00:00:00Z" } : NodeMessage)
      ∈ reapprovedDoc1.Messages ∧
    "origin-station" = reapprovedDoc1.SenderNode := by
  have hreach : Reachable reapprovedStore :=
    ReachableVia.approve env1 rejectedStore (goBytes "doc1") (goBytes "dest-customs")
        (goBytes "looks good")
      rejectedStore_reachable (by decide)
  exact ⟨hreach, by decide, by decide,
    (messages_typed_and_addressed reapprovedStore hreach (goBytes "doc1") reapprovedDoc1 (by decide)
      { From := "dest-customs", To := "origin-station", Message := "looks good",
        Type_ := "approval", Timestamp := "2024-01-02T00:00:00Z" } (by decide)).2.1⟩

/-- C20: in every store reachable from the empty store by successful calls of
`SubmitDocument`, `ApproveDocument` and `RejectDocument`, the approval nodes
of each document are, in order, the senders of its messages of type
"approval"; so there are as many approval messages as approval nodes. -/
theorem approvalNodes_eq_approval_senders (st : Store) (hreach : Reachable st) (k : GoString)
    (d : Document) (hm : (k, Value.json d) ∈ st) :
    d.ApprovalNodes
      = (d.Messages.filter (fun m => decide (m.Type_ = "approval"))).map (fun m => m.From) ∧
    (d.Messages.filter (fun m => decide (m.Type_ = "approval"))).length
      = d.ApprovalNodes.length := by
  have hmain : d.ApprovalNodes
      = (d.Messages.filter (fun m => decide (m.Type_ = "approval"))).map (fun m => m.From) := by
    unfold Reachable at hreach
    induction hreach generalizing k d with
    | empty => simp at hm
    | submit env st docID fileName senderNode recipientNode allowedViewers ipfsHash _ hok ih =>
      obtain ⟨d0, _, happ, hmsgs, _, _, _, heq⟩ := SubmitDocument_ok hok
      rw [heq] at hm
      rcases mem_insertKey hm with h1 | h1
      · have hd : d = d0 := by simpa using (Prod.mk.inj h1).2
        rw [hd, happ, hmsgs]
        rfl
      · exact ih k d h1
    | approve env st docID approverNode message _ hok ih =>
      obtain ⟨d0, hl, heq⟩ := ApproveDocument_ok hok
      rw [heq] at hm
      rcases mem_insertKey hm with h1 | h1
      · have hd := (Prod.mk.inj h1).2
        simp only [Value.json.injEq] at hd
        rw [hd]
        simp only [List.filter_append, List.map_append]
        rw [← ih docID d0 (lookupKey_mem hl)]
        rfl
      · exact ih k d h1
    | reject env st docID rejecterNode reason _ _ hok ih =>
      obtain ⟨d0, hl, heq⟩ := RejectDocument_ok hok
      rw [heq] at hm
      rcases mem_insertKey hm with h1 | h1
      · have hd := (Prod.mk.inj h1).2
        simp only [Value.json.injEq] at hd
        rw [hd]
        simp only [List.filter_append, List.map_append]
        rw [← ih docID d0 (lookupKey_mem hl)]
        have hnil : List.filter (fun m : NodeMessage => decide (m.Type_ = "approval"))
            [{ From := jsonString rejecterNode, To := d0.SenderNode,
               Message := jsonString (goBytes "Document rejected: " ++ reason),
               Type_ := "rejection", Timestamp := env.now }] = [] := by
          simp [List.filter]
        rw [hnil]
        simp
      · exact ih k d h1
  refine ⟨hmain, ?_⟩
  rw [hmain, List.length_map]

/-- C20, at the store in which `doc1` was submitted, rejected and then
approved: one approval node, one approval message among two messages. -/
theorem approvalNodes_eq_approval_senders_witness :
    Reachable reapprovedStore ∧ (goBytes "doc1", Value.json reapprovedDoc1) ∈ reapprovedStore ∧
    reapprovedDoc1.Messages.length = 2 ∧
    (reapprovedDoc1.Messages.filter (fun m => decide (m.Type_ = "approval"))).length
      = reapprovedDoc1.ApprovalNodes.length := by
  have hreach : Reachable reapprovedStore :=
    ReachableVia.approve env1 rejectedStore (goBytes "doc1") (goBytes "dest-customs")
        (goBytes "looks good")
      rejectedStore_reachable (by decide)
  exact ⟨hreach, by decide, by decide,
    (approvalNodes_eq_approval_senders reapprovedStore hreach (goBytes "doc1") reapprovedDoc1
      (by decide)).2⟩

end DocumentCC
